import Mathlib

/-!
# Verification of the elasticq Elasticsearch assistant core

Shallow embedding of the mapping service (`esMappingService`: `LRUCache`,
`MappingParser`, `ESMappingService`), the DSL diagnostics provider
(`ESValidator`), the partial-JSON context resolver (`getDSLContext`) and the
completion provider (`ESCompletionProvider`), together with proofs about the
properties stated in the specification.

JavaScript strings that are scanned character by character are embedded as
`List Char`; map-like JavaScript objects and `Map` instances are embedded as
association lists in insertion order (a JS `Map` preserves insertion order and
holds each key at most once).
-/

namespace ElasticQ

/-! ## Association-list model of JS `Map` objects / plain objects -/

abbrev Key := String

/-- `m.get(k)` on a JS `Map` (or `o[k]` on a plain object): the value stored
under `k`, if any. -/
def mapGet {V : Type} (l : List (Key × V)) (k : Key) : Option V :=
  (l.find? (fun p => p.1 == k)).map (fun p => p.2)

/-- `m.has(k)` on a JS `Map` (or `k in o`). -/
def mapHas {V : Type} (l : List (Key × V)) (k : Key) : Bool :=
  l.any (fun p => p.1 == k)

/-- `m.delete(k)` on a JS `Map`: removes the entry stored under `k` (keys are
unique in a `Map`, so a filter removes exactly that entry). -/
def eraseKey {V : Type} (l : List (Key × V)) (k : Key) : List (Key × V) :=
  l.filter (fun p => !(p.1 == k))

/-- `m.set(k, v)` on a JS `Map` (or `o[k] = v`): replaces the value in place
when the key is present, otherwise appends the new entry at the end. -/
def mapSet {V : Type} (l : List (Key × V)) (k : Key) (v : V) : List (Key × V) :=
  if mapHas l k then l.map (fun p => if p.1 == k then (p.1, v) else p)
  else l ++ [(k, v)]

theorem mapHas_iff {V : Type} (l : List (Key × V)) (k : Key) :
    mapHas l k = true ↔ k ∈ l.map Prod.fst := by
  simp only [mapHas, List.any_eq_true, List.mem_map, beq_iff_eq]

theorem mapSet_of_not_has {V : Type} (l : List (Key × V)) (k : Key) (v : V)
    (h : mapHas l k = false) : mapSet l k v = l ++ [(k, v)] := by
  simp [mapSet, h]

theorem mapHas_eraseKey_self {V : Type} (l : List (Key × V)) (k : Key) :
    mapHas (eraseKey l k) k = false := by
  simp [mapHas, eraseKey, List.any_eq_true, List.mem_filter]

theorem mem_eraseKey {V : Type} {l : List (Key × V)} {k : Key} {p : Key × V} :
    p ∈ eraseKey l k ↔ p ∈ l ∧ p.1 ≠ k := by
  simp [eraseKey, List.mem_filter]

theorem eraseKey_sublist {V : Type} (l : List (Key × V)) (k : Key) :
    (eraseKey l k).Sublist l :=
  List.filter_sublist l

theorem length_eraseKey_le {V : Type} (l : List (Key × V)) (k : Key) :
    (eraseKey l k).length ≤ l.length :=
  List.length_filter_le _ l

theorem length_eraseKey_lt_of_has {V : Type} (l : List (Key × V)) (k : Key)
    (h : mapHas l k = true) : (eraseKey l k).length < l.length := by
  induction l with
  | nil => simp [mapHas] at h
  | cons p t ih =>
    by_cases hk : p.1 == k
    · simp only [eraseKey, List.filter_cons, hk]
      simpa using Nat.lt_succ_of_le (length_eraseKey_le t k)
    · simp only [mapHas, List.any_cons, hk, Bool.false_or] at h
      simp only [eraseKey, List.filter_cons, hk]
      simpa using ih h

theorem mapGet_eq_some_of_find {V : Type} {l : List (Key × V)} {k : Key} {v : V}
    (h : mapGet l k = some v) :
    l.find? (fun p => p.1 == k) = some (k, v) := by
  simp only [mapGet, Option.map_eq_some'] at h
  obtain ⟨p, hp, hv⟩ := h
  have hk := List.find?_some hp
  have : p.1 = k := by simpa using hk
  cases p
  simp_all

/-! ## FieldInfo and the field schema registry

`FieldInfo` is the record stored for each flattened field path by
`MappingParser.parseProperties` (part_000 lines 149–188).  Fields that the
source leaves `undefined` are embedded as `Option`/default values. -/

structure FieldInfo where
  type : String
  analyzer : Option String := none
  search_analyzer : Option String := none
  normalizer : Option String := none
  format : Option String := none
  isNested : Bool := false
  hasProperties : Bool := false
  multiFields : List String := []
  isMultiField : Bool := false
  parentField : Option String := none
  deriving Repr, DecidableEq

/-- The flat registry `fields` built by `MappingParser.parse`: a plain JS
object mapping dot-joined field paths to `FieldInfo`. -/
abbrev Registry := List (Key × FieldInfo)

/-! ## `MappingParser.getFieldType` (part_000 lines 196–212) -/

/-- JS `String.prototype.split` with a single-character separator. -/
def splitOnChar (sep : Char) : List Char → List (List Char)
  | [] => [[]]
  | c :: rest =>
    if c = sep then [] :: splitOnChar sep rest
    else match splitOnChar sep rest with
      | [] => [[c]]
      | h :: t => (c :: h) :: t

/-- `fieldName.split('.')`. -/
def splitDot (s : String) : List String :=
  (splitOnChar '.' s.data).map String.mk

/-- `parts.join('.')` — JS `Array.prototype.join('.')`. -/
def joinDot : List String → String
  | [] => ""
  | [x] => x
  | x :: xs => x ++ "." ++ joinDot xs

/-- The descending loop `for (let i = parts.length; i > 0; i--)` in
`getFieldType`: try `parts.slice(0, i).join('.')` for `i = n, n-1, …, 1`. -/
def tryAncestors (fields : Registry) (parts : List String) : Nat → Option FieldInfo
  | 0 => none
  | i + 1 =>
    match mapGet fields (joinDot (parts.take (i + 1))) with
    | some fi => some fi
    | none => tryAncestors fields parts i

/-- `MappingParser.getFieldType(fields, fieldName)`: exact match first, then
progressively shorter dot-joined ancestors of the split field name. -/
def getFieldType (fields : Registry) (fieldName : String) : Option FieldInfo :=
  match mapGet fields fieldName with
  | some fi => some fi
  | none =>
    let parts := splitDot fieldName
    tryAncestors fields parts parts.length

theorem tryAncestors_eq_some_iff (fields : Registry) (parts : List String) :
    ∀ (i : Nat) (v : FieldInfo),
      tryAncestors fields parts i = some v ↔
        ∃ j, 0 < j ∧ j ≤ i ∧ mapGet fields (joinDot (parts.take j)) = some v ∧
          ∀ j', j < j' → j' ≤ i → mapGet fields (joinDot (parts.take j')) = none := by
  intro i
  induction i with
  | zero =>
    intro v
    simp only [tryAncestors]
    constructor
    · intro h; cases h
    · rintro ⟨j, hj0, hj, -, -⟩; omega
  | succ i ih =>
    intro v
    simp only [tryAncestors]
    cases htop : mapGet fields (joinDot (parts.take (i + 1))) with
    | some fi =>
      simp only [Option.some_inj]
      constructor
      · rintro rfl
        exact ⟨i + 1, Nat.succ_pos i, le_refl _, htop, fun j' h1 h2 => by omega⟩
      · rintro ⟨j, hj0, hj, hsome, hnone⟩
        rcases Nat.lt_or_ge j (i + 1) with hlt | hge
        · have := hnone (i + 1) hlt (le_refl _)
          rw [htop] at this; cases this
        · have : j = i + 1 := le_antisymm hj hge
          subst this
          rw [htop] at hsome
          exact Option.some_inj.mp hsome
    | none =>
      rw [ih v]
      constructor
      · rintro ⟨j, hj0, hj, hsome, hnone⟩
        refine ⟨j, hj0, Nat.le_succ_of_le hj, hsome, fun j' h1 h2 => ?_⟩
        rcases Nat.lt_or_ge j' (i + 1) with hlt | hge
        · exact hnone j' h1 (by omega)
        · have : j' = i + 1 := le_antisymm h2 hge
          subst this; exact htop
      · rintro ⟨j, hj0, hj, hsome, hnone⟩
        have hji : j ≤ i := by
          rcases Nat.lt_or_ge j (i + 1) with hlt | hge
          · omega
          · have : j = i + 1 := le_antisymm hj hge
            subst this; rw [htop] at hsome; cases hsome
        exact ⟨j, hj0, hji, hsome, fun j' h1 h2 => hnone j' h1 (by omega)⟩

theorem tryAncestors_eq_none_iff (fields : Registry) (parts : List String) :
    ∀ i : Nat,
      tryAncestors fields parts i = none ↔
        ∀ j, 0 < j → j ≤ i → mapGet fields (joinDot (parts.take j)) = none := by
  intro i
  induction i with
  | zero =>
    constructor
    · intro _ j hj0 hj; omega
    · intro _; rfl
  | succ i ih =>
    simp only [tryAncestors]
    cases htop : mapGet fields (joinDot (parts.take (i + 1))) with
    | some fi =>
      constructor
      · intro h; cases h
      · intro h
        have := h (i + 1) (Nat.succ_pos i) (le_refl _)
        rw [htop] at this; cases this
    | none =>
      rw [ih]
      constructor
      · intro h j hj0 hj
        rcases Nat.lt_or_ge j (i + 1) with hlt | hge
        · exact h j hj0 (by omega)
        · have : j = i + 1 := le_antisymm hj hge
          subst this; exact htop
      · intro h j hj0 hj
        exact h j hj0 (by omega)

/-! ## `LRUCache` (part_000 lines 46–89)

The backing `Map` is embedded as an association list in insertion order: the
first entry is the oldest (`cache.keys().next().value`), the last entry is the
most recently inserted. -/

structure LRUCache (V : Type) where
  maxSize : Nat
  cache : List (Key × V)
  deriving Repr

/-- A fresh `new LRUCache(maxSize)` (the constructor's default is 100; the
mapping service passes 50). -/
def LRUCache.fresh (V : Type) (maxSize : Nat) : LRUCache V :=
  { maxSize := maxSize, cache := [] }

/-- `LRUCache.get(key)`: `undefined` when absent; otherwise delete the entry
and re-insert it at the end (most recently used), returning the value.  The
returned pair is (returned value, cache after the call). -/
def LRUCache.get {V : Type} (c : LRUCache V) (key : Key) : Option V × LRUCache V :=
  if mapHas c.cache key = false then (none, c)
  else
    match mapGet c.cache key with
    | some value =>
        (some value, { c with cache := mapSet (eraseKey c.cache key) key value })
    | none => (none, c)  -- unreachable: the `has` check above succeeded

/-- `LRUCache.set(key, value)`: delete the key if present, otherwise evict
`cache.keys().next().value` (the first, least recently used entry — a no-op on
an empty map) when at capacity, then insert at the end. -/
def LRUCache.set {V : Type} (c : LRUCache V) (key : Key) (value : V) : LRUCache V :=
  let trimmed :=
    if mapHas c.cache key then eraseKey c.cache key
    else if c.cache.length ≥ c.maxSize then c.cache.tail
    else c.cache
  { c with cache := mapSet trimmed key value }

/-- `LRUCache.has(key)`. -/
def LRUCache.has {V : Type} (c : LRUCache V) (key : Key) : Bool :=
  mapHas c.cache key

/-- `LRUCache.clear()`. -/
def LRUCache.clear {V : Type} (c : LRUCache V) : LRUCache V :=
  { c with cache := [] }

/-- The `size` getter. -/
def LRUCache.size {V : Type} (c : LRUCache V) : Nat :=
  c.cache.length

/-- The `keys` getter: `Array.from(this.cache.keys())`. -/
def LRUCache.keys {V : Type} (c : LRUCache V) : List Key :=
  c.cache.map Prod.fst

/-- The members declared by `class LRUCache` (part_000 lines 46–89): the
constructor, the methods `get`, `set`, `has`, `clear` and the getters `size`
and `keys`.  No `delete` member is declared. -/
def LRUCache.memberNames : List String :=
  ["constructor", "get", "set", "has", "clear", "size", "keys"]

/-! ### Instrumented small-step semantics for get/set sequences

To state the recency claim we run an arbitrary sequence of `get`/`set`
operations against the mapping cache (`new LRUCache(50)`), recording for every
key the logical time at which it was last touched (a hit `get` or a `set`). -/

inductive MapOp (V : Type) where
  | get (k : Key)
  | set (k : Key) (v : V)

structure InstrState (V : Type) where
  cache : LRUCache V
  touch : Key → Nat
  clock : Nat

def touchUpd (t : Key → Nat) (k : Key) (n : Nat) : Key → Nat :=
  fun k' => if k' = k then n else t k'

def instrStep {V : Type} (s : InstrState V) : MapOp V → InstrState V
  | .get k =>
    match s.cache.get k with
    | (none, c') => { s with cache := c' }
    | (some _, c') =>
        { cache := c', touch := touchUpd s.touch k s.clock, clock := s.clock + 1 }
  | .set k v =>
      { cache := s.cache.set k v, touch := touchUpd s.touch k s.clock,
        clock := s.clock + 1 }

/-- The mapping service's cache before any operation: `new LRUCache(50)`. -/
def instrStart (V : Type) : InstrState V :=
  { cache := LRUCache.fresh V 50, touch := fun _ => 0, clock := 1 }

def instrRun {V : Type} (ops : List (MapOp V)) : InstrState V :=
  ops.foldl instrStep (instrStart V)

/-- Invariant tying the association list's order to recency: keys are unique,
the list is sorted by last-touch time (oldest first), every touch time is in
the past, and the list never exceeds the capacity of 50. -/
def InstrInv {V : Type} (s : InstrState V) : Prop :=
  s.cache.maxSize = 50 ∧
  (s.cache.cache.map Prod.fst).Nodup ∧
  s.cache.cache.length ≤ 50 ∧
  s.cache.cache.Pairwise (fun a b => s.touch a.1 < s.touch b.1) ∧
  ∀ p ∈ s.cache.cache, s.touch p.1 < s.clock

theorem mapHas_eq_false_of_sublist {V : Type} {base l : List (Key × V)} {k : Key}
    (hsub : base.Sublist l) (h : mapHas l k = false) : mapHas base k = false := by
  rw [Bool.eq_false_iff] at h ⊢
  intro hb
  exact h ((mapHas_iff l k).mpr ((hsub.map Prod.fst).mem ((mapHas_iff base k).mp hb)))

theorem mapHas_eq_false_iff_not_mem {V : Type} (l : List (Key × V)) (k : Key) :
    mapHas l k = false ↔ k ∉ l.map Prod.fst := by
  rw [Bool.eq_false_iff, Ne, mapHas_iff]

/-- Appending a fresh key at the current clock preserves uniqueness, the
recency ordering and the clock bound, for any base list carved out of the
invariant-satisfying list. -/
theorem append_fresh_props {V : Type} (l base : List (Key × V)) (t : Key → Nat)
    (clock : Nat) (k : Key) (v : V)
    (hsub : base.Sublist l)
    (hnodup : (l.map Prod.fst).Nodup)
    (hk : mapHas base k = false)
    (hpw : l.Pairwise (fun a b => t a.1 < t b.1))
    (hbd : ∀ p ∈ l, t p.1 < clock) :
    ((base ++ [(k, v)]).map Prod.fst).Nodup ∧
    (base ++ [(k, v)]).Pairwise
      (fun a b => touchUpd t k clock a.1 < touchUpd t k clock b.1) ∧
    ∀ p ∈ base ++ [(k, v)], touchUpd t k clock p.1 < clock + 1 := by
  have hknotmem : k ∉ base.map Prod.fst := (mapHas_eq_false_iff_not_mem base k).mp hk
  have hbnodup : (base.map Prod.fst).Nodup := (hsub.map Prod.fst).nodup hnodup
  have hne : ∀ p ∈ base, p.1 ≠ k := by
    intro p hp hpk
    exact hknotmem (hpk ▸ List.mem_map_of_mem Prod.fst hp)
  refine ⟨?_, ?_, ?_⟩
  · rw [List.map_append, List.nodup_append]
    refine ⟨hbnodup, by simp, ?_⟩
    intro a ha hb
    simp only [List.map_cons, List.map_nil, List.mem_singleton] at hb
    subst hb
    exact hknotmem ha
  · rw [List.pairwise_append]
    refine ⟨?_, by simp, ?_⟩
    · refine ((hpw.sublist hsub).imp_of_mem ?_)
      intro a b ha hb hab
      have hak := hne a ha
      have hbk := hne b hb
      simpa [touchUpd, hak, hbk] using hab
    · intro a ha b hb
      simp only [List.mem_singleton] at hb
      subst hb
      have hak := hne a ha
      simp only [touchUpd, hak, if_false, if_pos rfl]
      exact hbd a (hsub.mem ha)
  · intro p hp
    rcases List.mem_append.mp hp with hp | hp
    · have hpk := hne p hp
      simp only [touchUpd, hpk, if_false]
      exact Nat.lt_succ_of_lt (hbd p (hsub.mem hp))
    · simp only [List.mem_singleton] at hp
      subst hp
      simp [touchUpd]

theorem instrStep_preserves {V : Type} (s : InstrState V) (op : MapOp V)
    (h : InstrInv s) : InstrInv (instrStep s op) := by
  obtain ⟨hmax, hnodup, hlen, hpw, hbd⟩ := h
  cases op with
  | get k =>
    cases hhas : mapHas s.cache.cache k with
    | false =>
      simp only [instrStep, LRUCache.get, hhas]
      exact ⟨hmax, hnodup, hlen, hpw, hbd⟩
    | true =>
      have hfind : ∃ p, s.cache.cache.find? (fun p => p.1 == k) = some p := by
        rw [← Option.isSome_iff_exists]
        rw [List.find?_isSome]
        simpa [mapHas, List.any_eq_true] using hhas
      obtain ⟨p, hp⟩ := hfind
      have hget : mapGet s.cache.cache k = some p.2 := by
        simp [mapGet, hp]
      have hcache' :
          mapSet (eraseKey s.cache.cache k) k p.2 =
            eraseKey s.cache.cache k ++ [(k, p.2)] :=
        mapSet_of_not_has _ _ _ (mapHas_eraseKey_self _ _)
      have hprops := append_fresh_props s.cache.cache (eraseKey s.cache.cache k)
        s.touch s.clock k p.2 (eraseKey_sublist _ _) hnodup
        (mapHas_eraseKey_self _ _) hpw hbd
      simp only [instrStep, LRUCache.get, hhas, hget, hcache']
      refine ⟨hmax, hprops.1, ?_, hprops.2.1, hprops.2.2⟩
      have hlt := length_eraseKey_lt_of_has s.cache.cache k hhas
      have hlen2 : (eraseKey s.cache.cache k ++ [(k, p.2)]).length ≤ 50 := by
        simp only [List.length_append, List.length_cons, List.length_nil]
        omega
      exact hlen2
  | set k v =>
    cases hhas : mapHas s.cache.cache k with
    | true =>
      have hfind : ∃ p, s.cache.cache.find? (fun p => p.1 == k) = some p := by
        rw [← Option.isSome_iff_exists]
        rw [List.find?_isSome]
        simpa [mapHas, List.any_eq_true] using hhas
      have hcache' :
          mapSet (eraseKey s.cache.cache k) k v =
            eraseKey s.cache.cache k ++ [(k, v)] :=
        mapSet_of_not_has _ _ _ (mapHas_eraseKey_self _ _)
      have hprops := append_fresh_props s.cache.cache (eraseKey s.cache.cache k)
        s.touch s.clock k v (eraseKey_sublist _ _) hnodup
        (mapHas_eraseKey_self _ _) hpw hbd
      simp only [instrStep, LRUCache.set, hhas, if_true, hcache']
      refine ⟨hmax, hprops.1, ?_, hprops.2.1, hprops.2.2⟩
      have hlt := length_eraseKey_lt_of_has s.cache.cache k hhas
      have hlen2 : (eraseKey s.cache.cache k ++ [(k, v)]).length ≤ 50 := by
        simp only [List.length_append, List.length_cons, List.length_nil]
        omega
      exact hlen2
    | false =>
      by_cases hfull : s.cache.cache.length ≥ s.cache.maxSize
      · have htail : mapHas s.cache.cache.tail k = false :=
          mapHas_eq_false_of_sublist (List.tail_sublist _) hhas
        have hcache' :
            mapSet s.cache.cache.tail k v = s.cache.cache.tail ++ [(k, v)] :=
          mapSet_of_not_has _ _ _ htail
        have hprops := append_fresh_props s.cache.cache s.cache.cache.tail
          s.touch s.clock k v (List.tail_sublist _) hnodup htail hpw hbd
        simp only [instrStep, LRUCache.set, hhas, if_false, hfull, if_true,
          Bool.false_eq_true, hcache']
        refine ⟨hmax, hprops.1, ?_, hprops.2.1, hprops.2.2⟩
        have hstep : s.cache.cache.tail.length + 1 ≤ s.cache.cache.length := by
          cases hc : s.cache.cache with
          | nil => rw [hmax] at hfull; simp [hc] at hfull
          | cons a t => simp [hc]
        have hlen2 : (s.cache.cache.tail ++ [(k, v)]).length ≤ 50 := by
          simp only [List.length_append, List.length_cons, List.length_nil]
          omega
        exact hlen2
      · have hcache' : mapSet s.cache.cache k v = s.cache.cache ++ [(k, v)] :=
          mapSet_of_not_has _ _ _ hhas
        have hprops := append_fresh_props s.cache.cache s.cache.cache
          s.touch s.clock k v (List.Sublist.refl _) hnodup hhas hpw hbd
        simp only [instrStep, LRUCache.set, hhas, if_false, hfull, if_false,
          Bool.false_eq_true, hcache']
        refine ⟨hmax, hprops.1, ?_, hprops.2.1, hprops.2.2⟩
        rw [hmax] at hfull
        have hlen2 : (s.cache.cache ++ [(k, v)]).length ≤ 50 := by
          simp only [List.length_append, List.length_cons, List.length_nil]
          omega
        exact hlen2

theorem instrRun_inv {V : Type} (ops : List (MapOp V)) : InstrInv (instrRun ops) := by
  have hstart : InstrInv (instrStart V) :=
    ⟨rfl, List.nodup_nil, Nat.zero_le 50, List.Pairwise.nil,
      fun p hp => absurd hp (List.not_mem_nil p)⟩
  have hgen : ∀ (l : List (MapOp V)) (s : InstrState V), InstrInv s →
      InstrInv (l.foldl instrStep s) := by
    intro l
    induction l with
    | nil => intro s hs; exact hs
    | cons op rest ih =>
      intro s hs
      exact ih _ (instrStep_preserves s op hs)
  exact hgen ops _ hstart

/-- C2: after any sequence of get/set operations on the mapping cache
(`new LRUCache(50)`), the cache holds at most 50 entries; a `get` of a stored
key returns its value and moves exactly that entry to the most-recently-used
(last) position; a `set` always leaves its key in the most-recently-used
position; and a `set` of a fresh key at capacity evicts exactly the first
entry, which is the least-recently-touched one. -/
theorem lruCache_bound_recency_eviction {V : Type} (ops : List (MapOp V))
    (s : InstrState V) (hs : s = instrRun ops) :
    s.cache.cache.length ≤ 50 ∧
    (∀ k v, mapGet s.cache.cache k = some v →
      (s.cache.get k).1 = some v ∧
      ((s.cache.get k).2).cache = eraseKey s.cache.cache k ++ [(k, v)] ∧
      ((s.cache.get k).2).cache.getLast? = some (k, v)) ∧
    (∀ k v, ((s.cache.set k v)).cache.getLast? = some (k, v)) ∧
    (∀ k v, mapHas s.cache.cache k = false → s.cache.cache.length = 50 →
      (s.cache.set k v).cache = s.cache.cache.tail ++ [(k, v)] ∧
      ∀ hd ∈ s.cache.cache.head?, ∀ e ∈ s.cache.cache.tail,
        s.touch hd.1 < s.touch e.1) := by
  subst hs
  obtain ⟨hmax, hnodup, hlen, hpw, hbd⟩ := instrRun_inv (V := V) ops
  set s := instrRun ops with hs
  refine ⟨hlen, ?_, ?_, ?_⟩
  · intro k v hget
    have hfind := mapGet_eq_some_of_find hget
    have hhas : mapHas s.cache.cache k = true := by
      simp only [mapHas, List.any_eq_true]
      exact ⟨(k, v), List.mem_of_find?_eq_some hfind, by simp⟩
    have hcache' :
        mapSet (eraseKey s.cache.cache k) k v =
          eraseKey s.cache.cache k ++ [(k, v)] :=
      mapSet_of_not_has _ _ _ (mapHas_eraseKey_self _ _)
    simp only [LRUCache.get, hhas, Bool.true_eq_false, if_false, hget, hcache']
    exact ⟨trivial, trivial, List.getLast?_concat _⟩
  · intro k v
    simp only [LRUCache.set]
    by_cases hhas : mapHas s.cache.cache k = true
    · rw [if_pos hhas, mapSet_of_not_has _ _ _ (mapHas_eraseKey_self _ _)]
      exact List.getLast?_concat _
    · have hf : mapHas s.cache.cache k = false := by simpa using hhas
      rw [if_neg hhas]
      by_cases hfull : s.cache.cache.length ≥ s.cache.maxSize
      · rw [if_pos hfull,
          mapSet_of_not_has _ _ _
            (mapHas_eq_false_of_sublist (List.tail_sublist _) hf)]
        exact List.getLast?_concat _
      · rw [if_neg hfull, mapSet_of_not_has _ _ _ hf]
        exact List.getLast?_concat _
  · intro k v hhas hsize
    have hfull : s.cache.cache.length ≥ s.cache.maxSize := by rw [hmax]; omega
    have htail : mapHas s.cache.cache.tail k = false :=
      mapHas_eq_false_of_sublist (List.tail_sublist _) hhas
    constructor
    · simp only [LRUCache.set]
      rw [if_neg (by simp [hhas]), if_pos hfull, mapSet_of_not_has _ _ _ htail]
    · intro hd hhd e he
      cases hc : s.cache.cache with
      | nil => rw [hc] at hhd; cases hhd
      | cons a t =>
        rw [hc] at hhd hpw he
        simp only [List.head?_cons, Option.mem_def, Option.some_inj] at hhd
        subst hhd
        simp only [List.tail_cons] at he
        exact (List.pairwise_cons.mp hpw).1 e he

/-- Witness for `lruCache_bound_recency_eviction`: the bound applied after a
concrete three-operation sequence. -/
theorem lruCache_bound_recency_eviction_witness :
    (instrRun [MapOp.set "u1" (0 : Nat), MapOp.set "u2" 1,
      MapOp.get "u1"]).cache.cache.length ≤ 50 :=
  (lruCache_bound_recency_eviction
    [MapOp.set "u1" (0 : Nat), MapOp.set "u2" 1, MapOp.get "u1"] _ rfl).1

/-! ## JSON values

`JVal` models the values produced by `JSON.parse` / `response.json()`: JS
objects are association lists in key order.  Numbers are embedded as `Rat`
(JSON numerals; `Number.isInteger` becomes a denominator test). -/

inductive JVal where
  | null
  | bool (b : Bool)
  | num (q : Rat)
  | str (s : String)
  | arr (elems : List JVal)
  | obj (entries : List (Key × JVal))

/-- JS truthiness of a parsed JSON value (`NaN` cannot come from JSON). -/
def JVal.truthy : JVal → Bool
  | .null => false
  | .bool b => b
  | .num q => q != 0
  | .str s => s != ""
  | .arr _ => true
  | .obj _ => true

/-- `typeof v === 'object'` for a parsed JSON value (true for `null`, arrays
and objects). -/
def JVal.isObjectLike : JVal → Bool
  | .null => true
  | .arr _ => true
  | .obj _ => true
  | _ => false

/-- Property access `v[k]` on a non-null value: object key lookup, or array
index lookup for a numeric key; `undefined` (`none`) otherwise. -/
def JVal.getProp : JVal → String → Option JVal
  | .obj es, k => mapGet es k
  | .arr xs, k =>
    match k.toNat? with
    | some i => xs.get? i
    | none => none
  | _, _ => none

/-- Property access with JS exception behavior: reading a property of `null`
raises a `TypeError`. -/
def JVal.memberE : JVal → String → Except String (Option JVal)
  | .null, k => .error ("TypeError: Cannot read properties of null (reading " ++ k ++ ")")
  | v, k => .ok (v.getProp k)

/-- `for (const k in v)` enumeration together with the looked-up values:
object entries in insertion order, or array elements keyed by their stringified
indices.  (Own-index enumeration of primitive strings is not modeled; it is
unreachable behind the `typeof` guards used by the source.) -/
def JVal.entriesOf : JVal → List (Key × JVal)
  | .obj es => es
  | .arr xs => xs.enum.map (fun p => (toString p.1, p.2))
  | _ => []

/-- `Object.keys(v)` (for objects and arrays, as used by the source). -/
def JVal.keysOf (v : JVal) : List String :=
  v.entriesOf.map Prod.fst

theorem sizeOf_snd_lt {p : Key × JVal} : sizeOf p.2 < sizeOf p := by
  cases p with
  | mk a b =>
    simp only [Prod.mk.sizeOf_spec]
    omega

theorem sizeOf_mem_entriesOf_lt {v : JVal} {p : Key × JVal}
    (h : p ∈ v.entriesOf) : sizeOf p.2 < sizeOf v := by
  cases v with
  | obj es =>
    simp only [JVal.entriesOf] at h
    have h1 : sizeOf p < sizeOf es := List.sizeOf_lt_of_mem h
    have h2 : sizeOf p.2 < sizeOf p := sizeOf_snd_lt
    have h3 : sizeOf es < sizeOf (JVal.obj es) := by
      simp only [JVal.obj.sizeOf_spec]; omega
    omega
  | arr xs =>
    simp only [JVal.entriesOf, List.mem_map] at h
    obtain ⟨q, hq, hpq⟩ := h
    have hget := List.mem_enum_iff_getElem?.mp hq
    have hx : q.2 ∈ xs := by
      rw [List.mem_iff_getElem?]
      exact ⟨q.1, hget⟩
    have h1 : sizeOf q.2 < sizeOf xs := List.sizeOf_lt_of_mem hx
    have h2 : sizeOf xs < sizeOf (JVal.arr xs) := by
      simp only [JVal.arr.sizeOf_spec]; omega
    have h3 : p.2 = q.2 := by rw [← hpq]
    rw [h3]
    omega
  | null => simp [JVal.entriesOf] at h
  | bool b => simp [JVal.entriesOf] at h
  | num q => simp [JVal.entriesOf] at h
  | str s => simp [JVal.entriesOf] at h

theorem sizeOf_getProp_lt {v w : JVal} {k : String} (h : v.getProp k = some w) :
    sizeOf w < sizeOf v := by
  cases v with
  | obj es =>
    simp only [JVal.getProp, mapGet, Option.map_eq_some'] at h
    obtain ⟨p, hp, hw⟩ := h
    have hmem : p ∈ es := List.mem_of_find?_eq_some hp
    have h1 : sizeOf p < sizeOf es := List.sizeOf_lt_of_mem hmem
    have h2 : sizeOf p.2 < sizeOf p := sizeOf_snd_lt
    have h3 : sizeOf es < sizeOf (JVal.obj es) := by
      simp only [JVal.obj.sizeOf_spec]; omega
    have h4 : sizeOf w = sizeOf p.2 := by rw [hw]
    omega
  | arr xs =>
    simp only [JVal.getProp] at h
    cases hn : k.toNat? with
    | none => rw [hn] at h; cases h
    | some i =>
      rw [hn] at h
      have hmem : w ∈ xs := List.get?_mem h
      have h1 : sizeOf w < sizeOf xs := List.sizeOf_lt_of_mem hmem
      have h2 : sizeOf xs < sizeOf (JVal.arr xs) := by
        simp only [JVal.arr.sizeOf_spec]; omega
      omega
  | null => cases h
  | bool b => cases h
  | num q => cases h
  | str s => cases h

/-! ## `MappingParser.parse` (part_000 lines 101–188) -/

/-- A string-valued optional property (JS stores the raw value; `undefined`
becomes `none`; the mapping metadata read here is string-valued). -/
def strProp (field : JVal) (k : String) : Option String :=
  match field.getProp k with
  | some (.str s) => some s
  | _ => none

/-- The record stored at `fields[fullPath]` by `parseProperties` for a field
definition object (non-string `type` values, which Elasticsearch never
produces, are not distinguished from a missing `type`). -/
def fieldInfoOf (field : JVal) : FieldInfo :=
  { type :=
      match field.getProp "type" with  -- `field.type || 'object'`
      | some (.str t) => if t != "" then t else "object"
      | _ => "object",
    analyzer := strProp field "analyzer",
    search_analyzer := strProp field "search_analyzer",
    normalizer := strProp field "normalizer",
    format := strProp field "format",
    isNested :=
      match field.getProp "type" with  -- `field.type === 'nested'`
      | some (.str t) => t == "nested"
      | _ => false,
    hasProperties :=
      match field.getProp "properties" with  -- `!!field.properties`
      | some p => p.truthy
      | none => false,
    multiFields :=
      match field.getProp "fields" with  -- `field.fields ? Object.keys(...) : []`
      | some f => if f.truthy then f.keysOf else []
      | none => [] }

/-- The record stored at `fields[fullPath + '.' + multiFieldName]` for a
multi-field entry (`type: multiField.type, isMultiField: true, parentField`). -/
def multiFieldInfoOf (mf : JVal) (parent : String) : FieldInfo :=
  { type :=
      match mf.getProp "type" with
      | some (.str t) => t
      | _ => "",
    isMultiField := true,
    parentField := some parent }

/-- `MappingParser.parseProperties(properties, fields, prefix)`: walk the
properties object depth-first, storing a `FieldInfo` at each accumulated
dot-path, recursing into `field.properties`, and adding multi-field entries
from `field.fields`. -/
def parseProperties (properties : JVal) (fields : Registry) (pathPre : String) :
    Registry :=
  properties.entriesOf.attach.foldl
    (fun acc p =>
      let fieldName := p.1.1
      let field := p.1.2
      let fullPath := if pathPre != "" then pathPre ++ "." ++ fieldName else fieldName
      let acc := mapSet acc fullPath (fieldInfoOf field)
      let acc :=
        match hp : field.getProp "properties" with
        | some props =>
          if props.truthy then parseProperties props acc fullPath else acc
        | none => acc
      match field.getProp "fields" with
      | some fs =>
        if fs.truthy then
          fs.entriesOf.foldl
            (fun acc q =>
              mapSet acc (fullPath ++ "." ++ q.1) (multiFieldInfoOf q.2 fullPath))
            acc
        else acc
      | none => acc)
    fields
termination_by sizeOf properties
decreasing_by
  have h1 : sizeOf p.1.2 < sizeOf properties := sizeOf_mem_entriesOf_lt p.2
  have h2 : sizeOf props < sizeOf p.1.2 := sizeOf_getProp_lt hp
  omega

/-- `MappingParser.extractPropertiesFromLegacy(mapping)`. -/
def extractPropertiesFromLegacy (mapping : JVal) : JVal :=
  match mapping.getProp "properties" with
  | some p => if p.truthy then p else JVal.obj []
  | none => JVal.obj []

/-- `MappingParser.parse(mappingData)`: merge the `mappings.properties` trees
of every index entry of the response into one flat registry; a null/non-object
input or an entry without usable `mappings` contributes nothing. -/
def MappingParser.parse (mappingData : JVal) : Registry :=
  if !mappingData.truthy || !mappingData.isObjectLike then []
  else
    mappingData.entriesOf.foldl
      (fun fields p =>
        let indexData := p.2
        if !indexData.truthy then fields  -- `!indexData || !indexData.mappings`
        else
          match indexData.getProp "mappings" with
          | none => fields
          | some indexMapping =>
            if !indexMapping.truthy then fields
            else
              let properties :=
                match indexMapping.getProp "properties" with
                | some pr =>
                  if pr.truthy then pr else extractPropertiesFromLegacy indexMapping
                | none => extractPropertiesFromLegacy indexMapping
              if properties.truthy && properties.isObjectLike then
                parseProperties properties fields ""
              else fields)
      []

/-! ## `ESMappingService` (part_000 lines 324–503)

The service is embedded as a state machine.  The single `await` inside
`fetchMapping` splits the call into a synchronous phase
(`fetchMappingStart`) and a resumption (`fetchMappingResume`); the debounce
timer and the outcome of the eventual network fetch are explicit
(`fireDebounceTimer`, `FetchOutcome`). -/

/-- A JS value as seen by `fetchMapping`'s callers: either `undefined` or a
parsed field registry. -/
inductive JSValue where
  | undef
  | registry (r : Registry)
  deriving Repr, DecidableEq

abbrev Headers := List (String × String)

structure SvcStats where
  cacheHits : Nat
  cacheMisses : Nat
  fetchCount : Nat
  deriving Repr, DecidableEq

/-- The arguments captured by a scheduled `debounce` timer for
`_fetchMapping(elasticsearchUrl, indexName, headers, cacheKey)`. -/
structure DebouncedArgs where
  url : String
  indexName : String
  headers : Headers
  cacheKey : Key
  deriving Repr, DecidableEq

structure SvcState where
  cache : LRUCache Registry
  pendingRequests : List (Key × JSValue)
  stats : SvcStats
  debounceTimer : Option DebouncedArgs

/-- `new ESMappingService()`: an `LRUCache(50)`, empty pending map, zeroed
stats, no scheduled debounce timer. -/
def svcNew : SvcState :=
  { cache := LRUCache.fresh Registry 50, pendingRequests := [],
    stats := { cacheHits := 0, cacheMisses := 0, fetchCount := 0 },
    debounceTimer := none }

def mappingCacheKey (url indexName : String) : Key :=
  url ++ "#" ++ indexName

/-- Calling the function returned by `debounce(func, wait)` (part_000 lines
30–40): it clears any previously scheduled timeout, schedules
`func(...args)` for after the quiescence window, and — having no `return`
statement — evaluates to `undefined`. -/
def debouncedFetchCall (s : SvcState) (args : DebouncedArgs) : JSValue × SvcState :=
  (JSValue.undef, { s with debounceTimer := some args })

/-- The outcome of the network interaction inside `_fetchMapping`: a parsed
JSON body, or one of the failure modes (non-2xx status via the explicit
`throw`, a body that fails to parse as JSON, or a transport error). -/
inductive FetchOutcome where
  | ok (body : JVal)
  | httpError (status : Nat)
  | badBody
  | transportError

/-- `ESMappingService._fetchMapping` (part_000 lines 382–416): bump
`fetchCount`, fetch; on success parse the body, cache the registry under the
cache key and return it; any failure is caught, logged, and resolved as the
empty registry `{}` without caching. -/
def fetchMappingInternal (s : SvcState) (args : DebouncedArgs)
    (outcome : FetchOutcome) : Registry × SvcState :=
  let s := { s with stats := { s.stats with fetchCount := s.stats.fetchCount + 1 } }
  match outcome with
  | .ok body =>
    let fields := MappingParser.parse body
    (fields, { s with cache := s.cache.set args.cacheKey fields })
  | _ => ([], s)

/-- The scheduled debounce timer fires: run `_fetchMapping` with the captured
arguments (its return value is not observed by anyone). -/
def fireDebounceTimer (s : SvcState) (outcome : FetchOutcome) : SvcState :=
  match s.debounceTimer with
  | none => s
  | some args => (fetchMappingInternal { s with debounceTimer := none } args outcome).2

/-- How the synchronous prefix of `fetchMapping` (up to its one `await`)
ends. -/
inductive FetchPhase1 where
  | resolvedFromCache (r : Registry)
  | resolvedFromPending (v : JSValue)
  | awaitingPromise (cacheKey : Key) (requestPromise : JSValue)
  deriving Repr, DecidableEq

/-- `ESMappingService.fetchMapping` (part_000 lines 352–377), synchronous
prefix: cache hit returns the cached registry (bumping `cacheHits`);
otherwise bump `cacheMisses`; a pending entry for the key is returned as is;
otherwise `debouncedFetch(...)` is invoked — which schedules the timer and
evaluates to `undefined` — and that value is registered under
`pendingRequests[cacheKey]` before the caller awaits it. -/
def fetchMappingStart (s : SvcState) (url indexName : String) (headers : Headers) :
    FetchPhase1 × SvcState :=
  let cacheKey := mappingCacheKey url indexName
  if s.cache.has cacheKey then
    let (v, c') := s.cache.get cacheKey
    (.resolvedFromCache (v.getD []),
     { s with cache := c',
              stats := { s.stats with cacheHits := s.stats.cacheHits + 1 } })
  else
    let s := { s with stats := { s.stats with cacheMisses := s.stats.cacheMisses + 1 } }
    if mapHas s.pendingRequests cacheKey then
      (.resolvedFromPending ((mapGet s.pendingRequests cacheKey).getD .undef), s)
    else
      let (requestPromise, s) := debouncedFetchCall s
        { url := url, indexName := indexName, headers := headers, cacheKey := cacheKey }
      (.awaitingPromise cacheKey requestPromise,
       { s with pendingRequests := mapSet s.pendingRequests cacheKey requestPromise })

/-- `fetchMapping`, after the `await`: `await requestPromise` on the
non-thenable `undefined` yields that same value, and the `finally` block
removes the pending entry for the key. -/
def fetchMappingResume (s : SvcState) (cacheKey : Key) (requestPromise : JSValue) :
    JSValue × SvcState :=
  (requestPromise, { s with pendingRequests := eraseKey s.pendingRequests cacheKey })

/-- A full `fetchMapping` call executed without interleaving: the value its
promise resolves to, and the service state afterwards. -/
def fetchMappingCall (s : SvcState) (url indexName : String) (headers : Headers) :
    JSValue × SvcState :=
  match fetchMappingStart s url indexName headers with
  | (.resolvedFromCache r, s') => (.registry r, s')
  | (.resolvedFromPending v, s') => (v, s')
  | (.awaitingPromise key pr, s') => fetchMappingResume s' key pr

/-- `ESMappingService.clearCache()` (part_000 lines 466–474). -/
def clearCache (s : SvcState) : SvcState :=
  { s with cache := s.cache.clear, pendingRequests := [],
           stats := { cacheHits := 0, cacheMisses := 0, fetchCount := 0 } }

/-- `ESMappingService.clearIndexCache(elasticsearchUrl, indexName)` (part_000
lines 481–484): the body evaluates `this.cache.delete(cacheKey)`, but `class
LRUCache` declares no `delete` member (`LRUCache.memberNames`), so the member
access yields `undefined` and calling it raises a `TypeError`. -/
def clearIndexCache (s : SvcState) (url indexName : String) : Except String SvcState :=
  let cacheKey := mappingCacheKey url indexName
  match LRUCache.memberNames.find? (fun n => n == "delete") with
  | some _ => .ok s  -- unreachable: `delete` is not among the declared members
  | none =>
    .error ("TypeError: this.cache.delete is not a function (cacheKey " ++ cacheKey ++ ")")

/-- `ESMappingService.getStats()` (part_000 lines 489–495). -/
def getStats (s : SvcState) : SvcStats × Nat × Nat :=
  (s.stats, s.cache.size, s.pendingRequests.length)

/-! ### Concrete service scenarios -/

def demoUrl : String := "http://localhost:9200"

def demoIndex : String := "logs"

def demoKey : Key := mappingCacheKey demoUrl demoIndex

/-- C1: a `fetchMapping` call for an uncached key whose underlying fetch
fails.  The caller's promise resolves to `undefined` — not to the empty
registry — because `debouncedFetch` (an async function wrapped in `debounce`)
evaluates to `undefined`; the empty registry `{}` is produced by
`_fetchMapping`'s catch handler only when the timer later fires, is delivered
to nobody, and nothing is cached.  (The pending entry is still removed by the
`finally` block.) -/
theorem fetchMapping_uncached_failure_resolves_undefined :
    (fetchMappingCall svcNew demoUrl demoIndex []).1 = JSValue.undef ∧
    (fetchMappingCall svcNew demoUrl demoIndex []).2.pendingRequests = [] ∧
    (fetchMappingInternal (fetchMappingCall svcNew demoUrl demoIndex []).2
        { url := demoUrl, indexName := demoIndex, headers := [], cacheKey := demoKey }
        (FetchOutcome.httpError 404)).1 = ([] : Registry) ∧
    (fireDebounceTimer (fetchMappingCall svcNew demoUrl demoIndex []).2
        (FetchOutcome.httpError 404)).cache.cache = [] ∧
    (fireDebounceTimer (fetchMappingCall svcNew demoUrl demoIndex []).2
        (FetchOutcome.httpError 404)).stats.fetchCount = 1 :=
  ⟨rfl, rfl, rfl, rfl, rfl⟩

/-- Caller A's synchronous prefix: it registers the pending entry and then
awaits. -/
def c3PhaseA : FetchPhase1 × SvcState :=
  fetchMappingStart svcNew demoUrl demoIndex []

/-- Caller B runs while caller A is suspended at its `await`: same url and
index, so it hits the pending-requests map. -/
def c3CallB : JSValue × SvcState :=
  fetchMappingCall c3PhaseA.2 demoUrl demoIndex []

/-- Caller A resumes after caller B resolved. -/
def c3ResumeA : JSValue × SvcState :=
  fetchMappingResume c3CallB.2 demoKey JSValue.undef

/-- C3: two concurrent `fetchMapping` calls for the same uncached key.  Only
one debounced fetch is scheduled and, once the timer fires, exactly one fetch
attempt is made; the pending entry is removed after resolution.  But both
callers resolve to `undefined` immediately (the value `debounce` returns),
before the fetch has even been issued — the fetch's eventual result object is
delivered to neither caller. -/
theorem fetchMapping_concurrent_single_flight_undefined :
    c3PhaseA.1 = FetchPhase1.awaitingPromise demoKey JSValue.undef ∧
    c3CallB.1 = JSValue.undef ∧
    c3ResumeA.1 = JSValue.undef ∧
    c3ResumeA.2.pendingRequests = [] ∧
    c3ResumeA.2.stats.cacheMisses = 2 ∧
    c3ResumeA.2.stats.fetchCount = 0 ∧
    (fireDebounceTimer c3ResumeA.2 FetchOutcome.transportError).stats.fetchCount = 1 :=
  ⟨rfl, rfl, rfl, rfl, rfl, rfl, rfl⟩

/-- A concrete `FieldInfo` used in examples: the registry entry for a field
path `"a.b"` of type `keyword`. -/
def fiKeywordAB : FieldInfo := { type := "keyword" }

/-- A service state holding one cached registry under
`"http://localhost:9200#logs"`. -/
def c4State : SvcState :=
  { svcNew with cache := svcNew.cache.set demoKey [("status", fiKeywordAB)] }

/-- C4: `clearIndexCache` called with the endpoint and index of a cached
entry.  `LRUCache` declares no `delete` member, so `this.cache.delete(cacheKey)`
raises a `TypeError` instead of removing the entry and returning normally. -/
theorem clearIndexCache_throws_typeError :
    clearIndexCache c4State demoUrl demoIndex =
      .error ("TypeError: this.cache.delete is not a function" ++
        " (cacheKey http://localhost:9200#logs)") ∧
    LRUCache.memberNames.contains "delete" = false :=
  ⟨rfl, rfl⟩

/-- C6: `getFieldType` returns the exact-path match when present; otherwise it
strips trailing dot-segments and returns the `FieldInfo` of the longest stored
ancestor path, and returns `none` when no ancestor is stored.  In particular,
for a registry containing only `"a.b"`, looking up `"a.b.c"` returns the
`FieldInfo` of `"a.b"` and looking up `"x"` returns `none`. -/
theorem getFieldType_lookup_contract (fields : Registry) (fieldName : String) :
    (∀ v, mapGet fields fieldName = some v → getFieldType fields fieldName = some v) ∧
    (mapGet fields fieldName = none →
      (∀ v, getFieldType fields fieldName = some v ↔
        ∃ j, 0 < j ∧ j ≤ (splitDot fieldName).length ∧
          mapGet fields (joinDot ((splitDot fieldName).take j)) = some v ∧
          ∀ j', j < j' → j' ≤ (splitDot fieldName).length →
            mapGet fields (joinDot ((splitDot fieldName).take j')) = none) ∧
      (getFieldType fields fieldName = none ↔
        ∀ j, 0 < j → j ≤ (splitDot fieldName).length →
          mapGet fields (joinDot ((splitDot fieldName).take j)) = none)) ∧
    getFieldType [("a.b", fiKeywordAB)] "a.b.c" = some fiKeywordAB ∧
    getFieldType [("a.b", fiKeywordAB)] "x" = none := by
  refine ⟨?_, ?_, by decide, by decide⟩
  · intro v h
    simp only [getFieldType, h]
  · intro hnone
    constructor
    · intro v
      simp only [getFieldType, hnone]
      exact tryAncestors_eq_some_iff fields (splitDot fieldName) _ v
    · simp only [getFieldType, hnone]
      exact tryAncestors_eq_none_iff fields (splitDot fieldName) _

/-- Witness for `getFieldType_lookup_contract`: the exact-match clause applied
at a concrete registry and field name. -/
theorem getFieldType_lookup_contract_witness :
    getFieldType [("a.b", fiKeywordAB)] "a.b" = some fiKeywordAB :=
  (getFieldType_lookup_contract [("a.b", fiKeywordAB)] "a.b").1 fiKeywordAB (by decide)

/-! ## `ESValidator` — the schema-validating diagnostics engine
(src/lib/esDiagnosticsProvider.js lines 20–790)

Monaco marker severities are embedded as an enumeration; a Finding is the
plain object pushed onto the `errors` array (fields the source leaves off a
particular push are `none`).  Checks that can raise a JS exception return
`VRes`, whose error carries the findings accumulated so far together with the
exception message — `validate`'s catch block turns that into a trailing
syntax Finding. -/

inductive Severity where
  | error
  | warning
  | info
  deriving Repr, DecidableEq

/-- A segment of a Finding's `path` array: an object key or an array index. -/
inductive Seg where
  | key (s : String)
  | idx (n : Nat)
  deriving Repr, DecidableEq

structure Finding where
  severity : Severity
  message : String
  path : Option (List Seg) := none
  startLineNumber : Option Nat := none
  startColumn : Option Nat := none
  endLineNumber : Option Nat := none
  endColumn : Option Nat := none
  deriving Repr, DecidableEq

/-- Validator computations: either the findings list after the check, or an
uncaught JS exception (findings pushed before the throw, exception message). -/
abbrev VRes := Except (List Finding × String) (List Finding)

def mkF (sev : Severity) (msg : String) (path : List Seg) : Finding :=
  { severity := sev, message := msg, path := some path }

def mkFNoPath (sev : Severity) (msg : String) : Finding :=
  { severity := sev, message := msg }

/-- `typeof v !== 'object' || v === null`. -/
def jsNotObject (v : JVal) : Bool :=
  !v.isObjectLike || (match v with | .null => true | _ => false)

def JVal.isArr : JVal → Bool
  | .arr _ => true
  | _ => false

/-- `/^\d+$/.test(s)`. -/
def isDigitsOnly (s : String) : Bool :=
  !s.isEmpty && s.data.all Char.isDigit

/-- JS string coercion of a value interpolated into a template literal
(array/object renderings are simplified; no verified property depends on
those messages). -/
def jsDisplay : JVal → String
  | .null => "null"
  | .bool b => cond b "true" "false"
  | .str s => s
  | .num q => if q.den == 1 then toString q.num else toString q.num ++ "/" ++ toString q.den
  | .arr _ => "[array]"
  | .obj _ => "[object Object]"

def truthyOpt : Option JVal → Bool
  | some v => v.truthy
  | none => false

/-- `ESValidator.isValidQueryType` (diagnostics provider, lines 205–219). -/
def validQueryTypesDiag : List String :=
  ["match", "match_phrase", "match_phrase_prefix", "match_bool_prefix",
   "multi_match", "combined_fields", "bool", "boosting", "dis_max",
   "constant_score", "function_score", "script_score", "exists", "ids",
   "prefix", "range", "regexp", "wildcard", "fuzzy", "type", "terms",
   "terms_set", "term", "nested", "has_child", "has_parent", "parent_id",
   "geo_bounding_box", "geo_distance", "geo_polygon", "geo_shape",
   "more_like_this", "script", "simple_query_string", "query_string",
   "percolate", "rank_feature", "distance_feature", "interval",
   "span_term", "span_multi", "span_first", "span_near", "span_or",
   "span_not", "span_containing", "span_within", "span_field_masking"]

/-- `validateTopLevel`'s allow-list (lines 113–118). -/
def validTopLevelFields : List String :=
  ["query", "aggs", "aggregations", "sort", "size", "from",
   "timeout", "track_total_hits", "track_scores", "min_score",
   "source", "_source", "fields", "script_fields", "explain",
   "profile", "highlight", "rescore", "search_after", "collapse"]

/-- `ESValidator.validateTopLevel(query, errors)` (lines 99–128). -/
def validateTopLevel (query : JVal) (errs : List Finding) : List Finding :=
  if jsNotObject query then
    errs ++ [{ severity := .error, message := "Root must be an object",
               startLineNumber := some 1, startColumn := some 1,
               endLineNumber := some 1, endColumn := some 10 }]
  else
    query.entriesOf.foldl
      (fun errs p =>
        if !(validTopLevelFields.contains p.1) then
          errs ++ [mkFNoPath .warning ("Unknown top-level field: \"" ++ p.1 ++ "\"")]
        else errs)
      errs

/-- `validateMatchOptions`'s allow-list (lines 315–319). -/
def validMatchOptionNames : List String :=
  ["query", "analyzer", "boost", "operator", "minimum_should_match",
   "fuzziness", "prefix_length", "max_expansions", "zero_terms_query",
   "lenient", "cutoff_frequency", "auto_generate_synonyms_phrase_query"]

/-- `ESValidator.validateMatchOptions(options, errors, path)` (lines 314–339). -/
def validateMatchOptions (options : JVal) (errs : List Finding) (path : List Seg) :
    List Finding :=
  options.entriesOf.foldl
    (fun errs p =>
      let option := p.1
      let errs :=
        if !(validMatchOptionNames.contains option) then
          errs ++ [mkF .warning ("Unknown match query option: \"" ++ option ++ "\"")
            (path ++ [Seg.key option])]
        else errs
      if option == "operator" &&
          !(match p.2 with | .str s => s == "and" || s == "or" | _ => false) then
        errs ++ [mkF .error
          ("operator must be \"and\" or \"or\", got \"" ++ jsDisplay p.2 ++ "\"")
          (path ++ [Seg.key option])]
      else errs)
    errs

/-- `ESValidator.validateMatchQuery(matchQuery, errors, path)` (lines
271–309); `this.currentFields` is the `fields` parameter. -/
def validateMatchQuery (fields : Registry) (matchQuery : JVal)
    (errs : List Finding) (path : List Seg) : List Finding :=
  if jsNotObject matchQuery then
    errs ++ [mkF .error "match query must be an object" path]
  else if matchQuery.keysOf.length == 0 then
    errs ++ [mkF .error "match query requires at least one field" path]
  else
    matchQuery.entriesOf.foldl
      (fun errs p =>
        let fieldName := p.1
        -- `if (this.currentFields && !this.currentFields[fieldName])`
        let errs :=
          if (mapGet fields fieldName).isNone then
            errs ++ [mkF .warning ("Field \"" ++ fieldName ++ "\" not found in mapping")
              (path ++ [Seg.key fieldName])]
          else errs
        if !(jsNotObject p.2) then
          validateMatchOptions p.2 errs (path ++ [Seg.key fieldName])
        else errs)
      errs

/-- `ESValidator.validateTermQuery(termQuery, errors, path)` (lines 344–374). -/
def validateTermQuery (fields : Registry) (termQuery : JVal)
    (errs : List Finding) (path : List Seg) : List Finding :=
  if jsNotObject termQuery then
    errs ++ [mkF .error "term query must be an object" path]
  else
    termQuery.entriesOf.foldl
      (fun errs p =>
        let fieldName := p.1
        let errs :=
          if (mapGet fields fieldName).isNone then
            errs ++ [mkF .warning ("Field \"" ++ fieldName ++ "\" not found in mapping")
              (path ++ [Seg.key fieldName])]
          else errs
        -- `typeof fieldValue === 'object' && !Array.isArray(fieldValue)`
        if p.2.isObjectLike && !p.2.isArr then
          errs ++ [mkF .error
            ("term query value for \"" ++ fieldName ++ "\" should be a simple value or array")
            (path ++ [Seg.key fieldName])]
        else errs)
      errs

def validRangeOperators : List String :=
  ["gt", "gte", "lt", "lte", "format", "time_zone"]

def rangeFriendlyFieldTypes : List String :=
  ["integer", "long", "float", "double", "date", "ip"]

/-- `ESValidator.validateRangeQuery(rangeQuery, errors, path)` (lines
379–446). -/
def validateRangeQuery (fields : Registry) (rangeQuery : JVal)
    (errs : List Finding) (path : List Seg) : List Finding :=
  if jsNotObject rangeQuery then
    errs ++ [mkF .error "range query must be an object" path]
  else
    match rangeQuery.entriesOf with
    | [(fieldName, rangeValue)] =>
      if jsNotObject rangeValue || rangeValue.isArr then
        errs ++ [mkF .error
          ("range query value for \"" ++ fieldName ++ "\" must be an object with range operators")
          (path ++ [Seg.key fieldName])]
      else if rangeValue.keysOf.length == 0 then
        errs ++ [mkF .error
          "range query requires at least one range operator (gt, gte, lt, lte)"
          (path ++ [Seg.key fieldName])]
      else
        let errs :=
          rangeValue.keysOf.foldl
            (fun errs op =>
              if !(validRangeOperators.contains op) then
                errs ++ [mkF .error
                  ("Unknown range operator: \"" ++ op ++
                    "\". Valid operators are: gt, gte, lt, lte, format, time_zone")
                  (path ++ [Seg.key fieldName, Seg.key op])]
              else errs)
            errs
        match mapGet fields fieldName with
        | some fi =>
          if !(rangeFriendlyFieldTypes.contains fi.type) then
            errs ++ [mkF .warning
              ("range query is typically used with numeric/date fields, got \"" ++
                fi.type ++ "\"")
              (path ++ [Seg.key fieldName])]
          else errs
        | none => errs
    | _ => errs ++ [mkF .error "range query must have exactly one field" path]

/-- `ESValidator.validateExistsQuery(existsQuery, errors, path)` (lines
451–478). -/
def validateExistsQuery (fields : Registry) (existsQuery : JVal)
    (errs : List Finding) (path : List Seg) : List Finding :=
  if jsNotObject existsQuery then
    errs ++ [mkF .error "exists query must be an object" path]
  else
    -- `!existsQuery.field || typeof existsQuery.field !== 'string'`
    match existsQuery.getProp "field" with
    | some (.str f) =>
      if f == "" then
        errs ++ [mkF .error
          "exists query requires a \"field\" property with a string value" path]
      else if (mapGet fields f).isNone then
        errs ++ [mkF .warning ("Field \"" ++ f ++ "\" not found in mapping")
          (path ++ [Seg.key "field"])]
      else errs
    | _ =>
      errs ++ [mkF .error
        "exists query requires a \"field\" property with a string value" path]

/-- `field.split('^')[0]` — strip a `^boost` suffix. -/
def splitCaretHead (s : String) : String :=
  match splitOnChar '^' s.data with
  | [] => s
  | h :: _ => String.mk h

/-- `ESValidator.validateMultiMatchQuery(multiMatchQuery, errors, path)`
(lines 483–532).  A non-string entry of `fields` makes `field.split` raise a
`TypeError`. -/
def validateMultiMatchQuery (fields : Registry) (q : JVal)
    (errs : List Finding) (path : List Seg) : VRes :=
  if jsNotObject q then
    .ok (errs ++ [mkF .error "multi_match query must be an object" path])
  else
    let errs :=
      if !(truthyOpt (q.getProp "query")) then
        errs ++ [mkF .error "multi_match query requires \"query\" property" path]
      else errs
    if !(truthyOpt (q.getProp "fields")) then
      .ok (errs ++ [mkF .error "multi_match query requires \"fields\" property (array)" path])
    else
      match q.getProp "fields" with
      | some (.arr entries) =>
        entries.enum.foldl
          (fun acc ip =>
            match acc with
            | .error e => .error e
            | .ok errs =>
              match ip.2 with
              | .str s =>
                let fieldName := splitCaretHead s
                if (mapGet fields fieldName).isNone then
                  .ok (errs ++ [mkF .warning
                    ("Field \"" ++ fieldName ++ "\" not found in mapping")
                    (path ++ [Seg.key "fields", Seg.idx ip.1])])
                else .ok errs
              | _ => .error (errs, "TypeError: field.split is not a function"))
          (.ok errs)
      | _ =>
        .ok (errs ++ [mkF .error "\"fields\" must be an array" (path ++ [Seg.key "fields"])])

/-- `ESValidator.isValidAggregationType` (lines 626–636). -/
def validAggregationTypes : List String :=
  ["avg", "max", "min", "sum", "stats", "extended_stats", "cardinality",
   "value_count", "percentiles", "percentile_ranks", "terms", "filter",
   "filters", "range", "date_range", "ip_range", "histogram", "date_histogram",
   "geo_bounds", "geo_centroid", "nested", "reverse_nested", "top_hits",
   "bucket_sort", "composite", "significant_terms", "significant_text",
   "sampler", "diversified_sampler"]

/-- Aggregation types exempt from the `field` requirement (line 653). -/
def fieldExemptAggTypes : List String :=
  ["filter", "filters", "multi_terms", "diversified_sampler"]

mutual

/-- `ESValidator.validateAggregations(aggs, errors, path)` (lines 580–621). -/
def validateAggregations (fields : Registry) (aggs : JVal)
    (errs : List Finding) (path : List Seg) : List Finding :=
  if jsNotObject aggs then
    errs ++ [mkF .error "aggregations must be an object" path]
  else
    aggs.entriesOf.attach.foldl
      (fun errs p =>
        let aggName := p.1.1
        if isDigitsOnly aggName then errs  -- `/^\d+$/.test(aggName)` → continue
        else
          let aggValue := p.1.2
          if jsNotObject aggValue then
            errs ++ [mkF .error ("Aggregation \"" ++ aggName ++ "\" must be an object")
              (path ++ [Seg.key aggName])]
          else
            -- `const aggType = Object.keys(aggValue)[0]`
            match aggValue.keysOf.head? with
            | none =>
              errs ++ [mkF .error "Unknown aggregation type: \"undefined\""
                (path ++ [Seg.key aggName, Seg.key "undefined"])]
            | some aggType =>
              if !(validAggregationTypes.contains aggType) then
                errs ++ [mkF .error ("Unknown aggregation type: \"" ++ aggType ++ "\"")
                  (path ++ [Seg.key aggName, Seg.key aggType])]
              else
                match hc : aggValue.getProp aggType with
                | some config =>
                  validateAggregationConfig fields aggType config errs
                    (path ++ [Seg.key aggName, Seg.key aggType])
                | none => errs  -- unreachable: `aggType` is the first own key
      )
      errs
termination_by sizeOf aggs
decreasing_by
  have h1 : sizeOf p.1.2 < sizeOf aggs := sizeOf_mem_entriesOf_lt p.2
  have h2 : sizeOf config < sizeOf p.1.2 := sizeOf_getProp_lt hc
  omega

/-- `ESValidator.validateAggregationConfig(aggType, config, errors, path)`
(lines 641–698). -/
def validateAggregationConfig (fields : Registry) (aggType : String)
    (config : JVal) (errs : List Finding) (path : List Seg) : List Finding :=
  if jsNotObject config then
    errs ++ [mkF .error ("Aggregation config for \"" ++ aggType ++ "\" must be an object") path]
  else
    let errs :=
      if !(fieldExemptAggTypes.contains aggType) then
        match config.getProp "field" with
        | some f =>
          if !f.truthy then
            errs ++ [mkF .warning
              ("\"" ++ aggType ++ "\" aggregation typically requires a \"field\" property") path]
          else if (mapGet fields (jsDisplay f)).isNone then
            errs ++ [mkF .warning
              ("Field \"" ++ jsDisplay f ++ "\" not found in mapping")
              (path ++ [Seg.key "field"])]
          else errs
        | none =>
          errs ++ [mkF .warning
            ("\"" ++ aggType ++ "\" aggregation typically requires a \"field\" property") path]
      else errs
    let errs :=
      if aggType == "date_histogram" then
        if !(truthyOpt (config.getProp "calendar_interval")) &&
            !(truthyOpt (config.getProp "fixed_interval")) then
          errs ++ [mkF .warning
            "date_histogram should have calendar_interval or fixed_interval" path]
        else errs
      else if aggType == "histogram" then
        if !(truthyOpt (config.getProp "interval")) then
          errs ++ [mkF .warning "histogram requires \"interval\" property" path]
        else errs
      else errs
    -- `if (config.aggs || config.aggregations)` → recurse with the same path
    match ha : config.getProp "aggs" with
    | some a =>
      if a.truthy then validateAggregations fields a errs path
      else
        match hb : config.getProp "aggregations" with
        | some b => if b.truthy then validateAggregations fields b errs path else errs
        | none => errs
    | none =>
      match hb : config.getProp "aggregations" with
      | some b => if b.truthy then validateAggregations fields b errs path else errs
      | none => errs
termination_by sizeOf config
decreasing_by
  all_goals first
  | exact sizeOf_getProp_lt ha
  | exact sizeOf_getProp_lt hb

end

def boolClauseNames : List String :=
  ["must", "filter", "should", "must_not"]

mutual

/-- `ESValidator.validateQuery(query, errors, path)` (lines 133–200):
recursive descent over the clause objects, dispatching per clause type. -/
def validateQuery (fields : Registry) (q : JVal)
    (errs : List Finding) (path : List Seg) : VRes :=
  if jsNotObject q then
    .ok (errs ++ [mkF .error "Query must be an object" path])
  else
    q.entriesOf.attach.foldl
      (fun acc p =>
        match acc with
        | .error e => .error e
        | .ok errs =>
          let queryType := p.1.1
          let queryValue := p.1.2
          if !(validQueryTypesDiag.contains queryType) then
            .ok (errs ++ [mkF .error ("Unknown query type: \"" ++ queryType ++ "\"")
              (path ++ [Seg.key queryType])])
          else if queryType == "bool" then
            validateBoolQuery fields queryValue errs (path ++ [Seg.key queryType])
          else if queryType == "match" || queryType == "match_phrase" ||
              queryType == "match_phrase_prefix" then
            .ok (validateMatchQuery fields queryValue errs (path ++ [Seg.key queryType]))
          else if queryType == "term" || queryType == "terms" then
            .ok (validateTermQuery fields queryValue errs (path ++ [Seg.key queryType]))
          else if queryType == "range" then
            .ok (validateRangeQuery fields queryValue errs (path ++ [Seg.key queryType]))
          else if queryType == "exists" then
            .ok (validateExistsQuery fields queryValue errs (path ++ [Seg.key queryType]))
          else if queryType == "multi_match" then
            validateMultiMatchQuery fields queryValue errs (path ++ [Seg.key queryType])
          else if queryType == "nested" then
            validateNestedQuery fields queryValue errs (path ++ [Seg.key queryType])
          else if jsNotObject queryValue then
            .ok (errs ++ [mkF .error
              ("\"" ++ queryType ++ "\" query must be an object")
              (path ++ [Seg.key queryType])])
          else .ok errs)
      (.ok errs)
termination_by sizeOf q
decreasing_by
  all_goals
    exact sizeOf_mem_entriesOf_lt p.2

/-- `ESValidator.validateBoolQuery(boolQuery, errors, path)` (lines
224–266). -/
def validateBoolQuery (fields : Registry) (bq : JVal)
    (errs : List Finding) (path : List Seg) : VRes :=
  if jsNotObject bq then
    .ok (errs ++ [mkF .error "bool query must be an object" path])
  else
    bq.entriesOf.attach.foldl
      (fun acc p =>
        match acc with
        | .error e => .error e
        | .ok errs =>
          let clause := p.1.1
          if isDigitsOnly clause then .ok errs  -- skip array indices
          else if !(boolClauseNames.contains clause) then
            .ok (errs ++ [mkF .error
              ("Unknown bool clause: \"" ++ clause ++
                "\". Valid clauses are: must, filter, should, must_not")
              (path ++ [Seg.key clause])])
          else
            match hcv : p.1.2 with
            | .arr subQueries =>
              subQueries.attach.foldl
                (fun acc2 sq =>
                  match acc2 with
                  | .error e => .error e
                  | .ok errs =>
                    validateQuery fields sq.1 errs (path ++ [Seg.key clause]))
                (.ok errs)
            | _ =>
              .ok (errs ++ [mkF .error ("\"" ++ clause ++ "\" must be an array")
                (path ++ [Seg.key clause])]))
      (.ok errs)
termination_by sizeOf bq
decreasing_by
  have h1 : sizeOf p.1.2 < sizeOf bq := sizeOf_mem_entriesOf_lt p.2
  have h2 : sizeOf sq.1 < sizeOf subQueries := List.sizeOf_lt_of_mem sq.2
  have h3 : sizeOf subQueries < sizeOf (JVal.arr subQueries) := by
    simp only [JVal.arr.sizeOf_spec]; omega
  rw [hcv] at h1
  omega

/-- `ESValidator.validateNestedQuery(nestedQuery, errors, path)` (lines
537–575). -/
def validateNestedQuery (fields : Registry) (nq : JVal)
    (errs : List Finding) (path : List Seg) : VRes :=
  if jsNotObject nq then
    .ok (errs ++ [mkF .error "nested query must be an object" path])
  else if !(truthyOpt (nq.getProp "path")) then
    .ok (errs ++ [mkF .error "nested query requires \"path\" property" path])
  else
    let step :=
      match hq : nq.getProp "query" with
      | some qv =>
        if qv.truthy then validateQuery fields qv errs (path ++ [Seg.key "query"])
        else .ok (errs ++ [mkF .error "nested query requires \"query\" property" path])
      | none =>
        .ok (errs ++ [mkF .error "nested query requires \"query\" property" path])
    match step with
    | .error e => .error e
    | .ok errs =>
      -- `const nestedField = this.currentFields[nestedQuery.path]`
      let pkey := jsDisplay ((nq.getProp "path").getD JVal.null)
      match mapGet fields pkey with
      | some nf =>
        if !nf.isNested then
          .ok (errs ++ [mkF .error ("Field \"" ++ pkey ++ "\" is not a nested field")
            (path ++ [Seg.key "path"])])
        else .ok errs
      | none => .ok errs
termination_by sizeOf nq
decreasing_by
  exact sizeOf_getProp_lt hq

end

/-- `ESValidator.validateSort(sort, errors, path)` (lines 703–747).  The
caller passes no `path` argument (line 60), so `path` is `undefined`
(`none`): the spread `[...path, index]` performed when a sort finding is
pushed then raises a `TypeError`. -/
def validateSort (fields : Registry) (sort : JVal) (errs : List Finding)
    (path : Option (List Seg)) : VRes :=
  match sort with
  | .arr items =>
    items.enum.foldl
      (fun acc ip =>
        match acc with
        | .error e => .error e
        | .ok errs =>
          let index := ip.1
          match ip.2 with
          | .str s =>
            if (mapGet fields s).isNone && !(["_score", "_doc"].contains s) then
              match path with
              | none => .error (errs, "TypeError: undefined is not iterable")
              | some p =>
                .ok (errs ++ [mkF .warning
                  ("Sort field \"" ++ s ++ "\" not found in mapping")
                  (p ++ [Seg.idx index])])
            else .ok errs
          | sortItem =>
            if sortItem.isObjectLike then
              sortItem.entriesOf.foldl
                (fun acc2 q =>
                  match acc2 with
                  | .error e => .error e
                  | .ok errs =>
                    let fieldName := q.1
                    let step : VRes :=
                      if (mapGet fields fieldName).isNone &&
                          !(["_score", "_doc"].contains fieldName) then
                        match path with
                        | none => .error (errs, "TypeError: undefined is not iterable")
                        | some p =>
                          .ok (errs ++ [mkF .warning
                            ("Sort field \"" ++ fieldName ++ "\" not found in mapping")
                            (p ++ [Seg.idx index, Seg.key fieldName])])
                      else .ok errs
                    match step with
                    | .error e => .error e
                    | .ok errs =>
                      -- `const order = sortItem[fieldName]`
                      match q.2 with
                      | .null =>
                        -- `typeof null === 'object' && null.order` throws
                        .error (errs, "TypeError: Cannot read properties of null (reading order)")
                      | order =>
                        if order.isObjectLike && truthyOpt (order.getProp "order") then
                          let ov := (order.getProp "order").getD JVal.null
                          if !(match ov with
                              | .str s => s == "asc" || s == "desc"
                              | _ => false) then
                            match path with
                            | none => .error (errs, "TypeError: undefined is not iterable")
                            | some p =>
                              .ok (errs ++ [mkF .error
                                ("Sort order must be \"asc\" or \"desc\", got \"" ++
                                  jsDisplay ov ++ "\"")
                                (p ++ [Seg.idx index, Seg.key fieldName, Seg.key "order"])])
                          else .ok errs
                        else .ok errs)
                (.ok errs)
            else .ok errs)
      (.ok errs)
  | _ => .ok errs

/-- `Number.isInteger(v)` on a property value. -/
def isIntegerJ : Option JVal → Bool
  | some (.num q) => q.den == 1
  | _ => false

def numOr0 : Option JVal → Rat
  | some (.num q) => q
  | _ => 0

/-- `ESValidator.validateCommonFields(query, errors)` (lines 752–789);
`query` is never `null` here (the earlier `query.query` access would have
thrown). -/
def validateCommonFields (query : JVal) (errs : List Finding) : List Finding :=
  let errs :=
    match query.getProp "size" with
    | none => errs  -- `query.size !== undefined` fails
    | some sv =>
      if !(isIntegerJ (some sv)) || numOr0 (some sv) < 0 then
        errs ++ [mkFNoPath .warning "size must be a non-negative integer"]
      else if numOr0 (some sv) > 10000 then
        errs ++ [mkFNoPath .info
          "Large size value may impact performance. Consider using pagination."]
      else errs
  let errs :=
    match query.getProp "from" with
    | none => errs
    | some fv =>
      if !(isIntegerJ (some fv)) || numOr0 (some fv) < 0 then
        errs ++ [mkFNoPath .warning "from must be a non-negative integer"]
      else errs
  -- `Number.isInteger(query.from) && Number.isInteger(query.size) &&
  --  query.from + query.size > 10000`: both operands are integers (den = 1)
  -- whenever the sum is evaluated, so it is computed on the numerators.
  if (match query.getProp "from", query.getProp "size" with
      | some (.num qf), some (.num qs) =>
        qf.den == 1 && qs.den == 1 && decide ((qf.num + qs.num : Int) > 10000)
      | _, _ => false) then
    errs ++ [mkFNoPath .info
      "from + size exceeds 10000. Consider using search_after for deep pagination."]
  else errs

/-- `ESValidator.getErrorPosition(text, position)` (lines 88–94): split
`text.substring(0, position)` on newlines; the line number is the number of
resulting lines, the column is the length of the last one plus one. -/
def getErrorPosition (text : List Char) (position : Nat) : Nat × Nat :=
  let lines := splitOnChar '\n' (text.take position)
  (lines.length, (lines.getLastD []).length + 1)

/-- A JS exception as observed by `validate`'s catch block: its `message`,
and the character offset extracted by `e.message.match(/position (\d+)/)`
(`none` when the message carries no offset — in particular for every
`TypeError` thrown by the checks themselves, whose messages never contain
the word `position`; the code then falls back to offset 0). -/
structure JSError where
  message : String
  reportedPos : Option Nat
  deriving Repr, DecidableEq

/-- The Finding pushed by `validate`'s catch block (lines 66–80). -/
def syntaxErrorFinding (text : List Char) (e : JSError) : Finding :=
  let position := e.reportedPos.getD 0
  let lc := getErrorPosition text position
  { severity := .error, message := "JSON syntax error: " ++ e.message,
    startLineNumber := some lc.1, startColumn := some lc.2,
    endLineNumber := some lc.1, endColumn := some (lc.2 + 1) }

/-- The body of `validate`'s try block after a successful parse (steps 2–6,
lines 44–64).  `query.query` is a property access that throws on a `null`
root; every later access in this body is on a non-null value. -/
def validateParsed (fields : Registry) (query : JVal) : VRes :=
  let errs := validateTopLevel query []
  match query.memberE "query" with
  | .error msg => .error (errs, msg)
  | .ok qprop =>
    let step1 : VRes :=
      match qprop with
      | some qv =>
        if qv.truthy then validateQuery fields qv errs [Seg.key "query"]
        else .ok errs
      | none => .ok errs
    match step1 with
    | .error e => .error e
    | .ok errs =>
      -- `if (query.aggs || query.aggregations)`
      let aggsOpt : Option JVal :=
        match query.getProp "aggs" with
        | some a =>
          if a.truthy then some a
          else
            match query.getProp "aggregations" with
            | some b => if b.truthy then some b else none
            | none => none
        | none =>
          match query.getProp "aggregations" with
          | some b => if b.truthy then some b else none
          | none => none
      let errs :=
        match aggsOpt with
        | some aggs => validateAggregations fields aggs errs [Seg.key "aggs"]
        | none => errs
      -- `if (query.sort) this.validateSort(query.sort, errors)` — no path arg
      let step2 : VRes :=
        match query.getProp "sort" with
        | some sv => if sv.truthy then validateSort fields sv errs none else .ok errs
        | none => .ok errs
      match step2 with
      | .error e => .error e
      | .ok errs => .ok (validateCommonFields query errs)

/-- `ESValidator.validate(dslText)` (lines 37–83).  The host `JSON.parse` is
abstracted as `parseResult` (`.error e` when it throws `e`); on parse
failure the one syntax Finding is the entire result, and an exception thrown
by a later check appends the same kind of Finding to whatever was already
accumulated. -/
def validate (fields : Registry) (text : List Char)
    (parseResult : Except JSError JVal) : List Finding :=
  match parseResult with
  | .error e => [syntaxErrorFinding text e]
  | .ok query =>
    match validateParsed fields query with
    | .ok errs => errs
    | .error (errs, msg) =>
      errs ++ [syntaxErrorFinding text { message := msg, reportedPos := none }]

theorem splitOnChar_ne_nil (sep : Char) (l : List Char) : splitOnChar sep l ≠ [] := by
  cases l with
  | nil => simp [splitOnChar]
  | cons c rest =>
    simp only [splitOnChar]
    by_cases hc : c = sep
    · simp [hc]
    · simp only [hc, if_false]
      cases splitOnChar sep rest with
      | nil => simp
      | cons h t => simp

theorem getLastD_irrel {α : Type} {l : List α} (h : l ≠ []) (d1 d2 : α) :
    l.getLastD d1 = l.getLastD d2 := by
  cases l with
  | nil => exact absurd rfl h
  | cons b t => rfl

theorem takeWhile_concat_neg {α : Type} (p : α → Bool) (xs : List α) (a : α)
    (h : p a = false) : (xs ++ [a]).takeWhile p = xs.takeWhile p := by
  induction xs with
  | nil => simp [List.takeWhile, h]
  | cons x t ih =>
    simp only [List.cons_append, List.takeWhile_cons]
    cases p x <;> simp [ih]

theorem takeWhile_concat_pos_all {α : Type} (p : α → Bool) (xs : List α) (a : α)
    (hall : ∀ x ∈ xs, p x = true) (h : p a = true) :
    (xs ++ [a]).takeWhile p = xs ++ [a] := by
  induction xs with
  | nil => simp [List.takeWhile, h]
  | cons x t ih =>
    have hx : p x = true := hall x (by simp)
    simp only [List.cons_append, List.takeWhile_cons, hx, if_true]
    simp only [List.cons.injEq, true_and]
    exact ih (fun y hy => hall y (by simp [hy]))

theorem takeWhile_concat_of_not_all {α : Type} (p : α → Bool) (xs : List α) (a : α)
    (h : ¬ ∀ x ∈ xs, p x = true) : (xs ++ [a]).takeWhile p = xs.takeWhile p := by
  induction xs with
  | nil => exact absurd (fun x hx => absurd hx (List.not_mem_nil x)) h
  | cons y ys ih =>
    by_cases hy : p y = true
    · simp only [List.cons_append, List.takeWhile_cons, hy, if_true]
      by_cases hys : ∀ x ∈ ys, p x = true
      · refine absurd (fun x hx => ?_) h
        rcases List.mem_cons.mp hx with hx | hx
        · subst hx; exact hy
        · exact hys x hx
      · simp only [List.cons.injEq, true_and]
        exact ih hys
    · have hyf : p y = false := by revert hy; cases p y <;> simp
      simp [List.takeWhile_cons, hyf]

/-- Splitting on a separator: the number of chunks is the separator count plus
one, and the last chunk is as long as the run of non-separator characters at
the end. -/
theorem splitOnChar_spec (sep : Char) (l : List Char) :
    (splitOnChar sep l).length = l.count sep + 1 ∧
    ((splitOnChar sep l).getLastD []).length =
      (l.reverse.takeWhile (fun c => !(c == sep))).length := by
  induction l with
  | nil => simp [splitOnChar]
  | cons c rest ih =>
    obtain ⟨ihlen, ihlast⟩ := ih
    by_cases hc : c = sep
    · have hsplitc : splitOnChar sep (c :: rest) = [] :: splitOnChar sep rest := by
        simp only [splitOnChar, if_pos hc]
      constructor
      · rw [hsplitc, List.length_cons, ihlen]
        have hcnt : (c :: rest).count sep = rest.count sep + 1 := by
          subst hc
          simp [List.count_cons]
        omega
      · have h1 : ([] :: splitOnChar sep rest).getLastD ([] : List Char) =
            (splitOnChar sep rest).getLastD [] := by
          rw [List.getLastD_cons]
        have h2 : ((c :: rest).reverse.takeWhile (fun x => !(x == sep))).length =
            (rest.reverse.takeWhile (fun x => !(x == sep))).length := by
          rw [List.reverse_cons, takeWhile_concat_neg _ _ _ (by simp [hc])]
        rw [hsplitc, h1, h2]
        exact ihlast
    · have hcount : (c :: rest).count sep = rest.count sep :=
        List.count_cons_of_ne (Ne.symm hc) rest
      have hrev : (c :: rest).reverse = rest.reverse ++ [c] := List.reverse_cons c rest
      cases hs : splitOnChar sep rest with
      | nil => exact absurd hs (splitOnChar_ne_nil sep rest)
      | cons h t =>
        have hsplit : splitOnChar sep (c :: rest) = (c :: h) :: t := by
          simp only [splitOnChar, hc, if_false, hs]
        rw [hs] at ihlen ihlast
        constructor
        · rw [hsplit, hcount, List.length_cons]
          simpa using ihlen
        · cases ht : t with
          | nil =>
            -- one chunk: `rest` holds no separator
            subst ht
            have hnosep : rest.count sep = 0 := by
              simp only [List.length_cons, List.length_nil] at ihlen
              omega
            have hall : ∀ x ∈ rest.reverse, (!(x == sep)) = true := by
              intro x hx
              rw [List.mem_reverse] at hx
              have hxne : x ≠ sep := by
                intro hxe
                subst hxe
                rw [List.count_eq_zero] at hnosep
                exact hnosep hx
              simpa using hxne
            have hlast1 : ((c :: h) :: ([] : List (List Char))).getLastD [] = c :: h := rfl
            rw [hsplit, hlast1]
            have h2 : rest.reverse.takeWhile (fun x => !(x == sep)) = rest.reverse :=
              List.takeWhile_eq_self_iff.mpr hall
            have h3 : ((h : List Char) :: ([] : List (List Char))).getLastD [] = h := rfl
            rw [h3] at ihlast
            rw [hrev, takeWhile_concat_pos_all _ _ _ hall (by simpa using hc)]
            rw [h2] at ihlast
            simp only [List.length_reverse] at ihlast
            simp only [List.length_cons, List.length_append, List.length_reverse,
              List.length_nil]
            omega
          | cons t0 ts =>
            -- several chunks: `rest` holds a separator, so the trailing run of
            -- `c :: rest` is the trailing run of `rest`
            have hlast1 : ((c :: h) :: t).getLastD [] = t.getLastD [] := by
              rw [List.getLastD_cons]
              exact getLastD_irrel (by rw [ht]; simp) _ _
            have hlast2 : ((h : List Char) :: t).getLastD [] = t.getLastD [] := by
              rw [List.getLastD_cons]
              exact getLastD_irrel (by rw [ht]; simp) _ _
            have hsep : 0 < rest.count sep := by
              rw [ht] at ihlen
              simp only [List.length_cons] at ihlen
              omega
            have hmem : sep ∈ rest := List.count_pos_iff.mp hsep
            have hnall : ¬ ∀ x ∈ rest.reverse, (!(x == sep)) = true := by
              intro hallp
              have := hallp sep (by simpa using hmem)
              simp at this
            have h2 : (rest.reverse ++ [c]).takeWhile (fun x => !(x == sep)) =
                rest.reverse.takeWhile (fun x => !(x == sep)) :=
              takeWhile_concat_of_not_all _ _ c hnall
            rw [hsplit, hlast1, hrev, h2, ← hlast2]
            exact ihlast

/-- C5: on a failed strict parse, `validate` returns exactly the one error
Finding built in the catch block — severity error, message `JSON syntax
error: …` — positioned at the line/column recovered from the parser-reported
offset; no other check contributes.  The line is one more than the number of
newlines among the first `pos` characters of the text, and the column is one
more than the number of characters after the last such newline. -/
theorem validate_parse_failure_single_finding (fields : Registry)
    (text : List Char) (e : JSError) :
    validate fields text (.error e) =
      [{ severity := .error, message := "JSON syntax error: " ++ e.message,
         startLineNumber := some (getErrorPosition text (e.reportedPos.getD 0)).1,
         startColumn := some (getErrorPosition text (e.reportedPos.getD 0)).2,
         endLineNumber := some (getErrorPosition text (e.reportedPos.getD 0)).1,
         endColumn := some ((getErrorPosition text (e.reportedPos.getD 0)).2 + 1) }] ∧
    (getErrorPosition text (e.reportedPos.getD 0)).1 =
      (text.take (e.reportedPos.getD 0)).count '\n' + 1 ∧
    (getErrorPosition text (e.reportedPos.getD 0)).2 =
      ((text.take (e.reportedPos.getD 0)).reverse.takeWhile
        (fun c => !(c == '\n'))).length + 1 := by
  refine ⟨rfl, ?_, ?_⟩
  · exact (splitOnChar_spec '\n' (text.take (e.reportedPos.getD 0))).1
  · have h := (splitOnChar_spec '\n' (text.take (e.reportedPos.getD 0))).2
    simp only [getErrorPosition]
    omega

/-- The parsed document `{"size": 50000, "from": 0}`. -/
def c7Doc : JVal :=
  JVal.obj [("size", JVal.num 50000), ("from", JVal.num 0)]

/-- C7 counterexample: validating `{"size": 50000, "from": 0}` yields TWO
info Findings, not exactly one — `from + size = 50000` also exceeds 10000, so
the deep-pagination info fires as well.  (No error Findings, as claimed.) -/
theorem validate_size50000_two_infos_counterexample :
    ((validate [] [] (.ok c7Doc)).filter
        (fun f => f.severity == Severity.info)).length = 2 ∧
    ((validate [] [] (.ok c7Doc)).filter
        (fun f => f.severity == Severity.error)).length = 0 := by
  constructor
  · rfl
  · rfl

/-- C7 amended: validating `{"size": 50000, "from": 0}` yields exactly two
info Findings — the large-`size` performance caution and the
`from + size > 10000` deep-pagination caution, in that order — and no error
or warning Findings. -/
theorem validate_size50000_exactly_two_infos :
    validate [] [] (.ok c7Doc) =
      [mkFNoPath .info
        "Large size value may impact performance. Consider using pagination.",
       mkFNoPath .info
        "from + size exceeds 10000. Consider using search_after for deep pagination."] := by
  rfl

/-! ### Exact-match field-existence checks (C10) -/

theorem foldl_append_mono {α : Type} (f : List Finding → α → List Finding)
    (hf : ∀ errs x, ∃ t, f errs x = errs ++ t) (l : List α) :
    ∀ errs, ∃ t, l.foldl f errs = errs ++ t := by
  induction l with
  | nil => intro errs; exact ⟨[], by simp⟩
  | cons x xs ih =>
    intro errs
    obtain ⟨t1, ht1⟩ := hf errs x
    obtain ⟨t2, ht2⟩ := ih (errs ++ t1)
    exact ⟨t1 ++ t2, by simp [List.foldl_cons, ht1, ht2]⟩

theorem validateMatchOptions_mono (options : JVal) (errs : List Finding)
    (path : List Seg) : ∃ t, validateMatchOptions options errs path = errs ++ t := by
  refine foldl_append_mono _ ?_ options.entriesOf errs
  intro errs p
  refine ⟨(if !(validMatchOptionNames.contains p.1) then
      [mkF .warning ("Unknown match query option: \"" ++ p.1 ++ "\"")
        (path ++ [Seg.key p.1])] else []) ++
    (if (p.1 == "operator") &&
        !(match p.2 with | .str s => s == "and" || s == "or" | _ => false) then
      [mkF .error ("operator must be \"and\" or \"or\", got \"" ++ jsDisplay p.2 ++ "\"")
        (path ++ [Seg.key p.1])] else []), ?_⟩
  by_cases h1 : (!(validMatchOptionNames.contains p.1)) = true <;>
    by_cases h2 : ((p.1 == "operator") &&
      !(match p.2 with | .str s => s == "and" || s == "or" | _ => false)) = true <;>
    by_cases h3 : p.1 ∈ validMatchOptionNames <;>
    simp [h1, h2, h3]

/-- A concrete registry for the C10 scenario: only the path `"a.b"` is
mapped, with an integer type. -/
def fiIntegerAB : FieldInfo := { type := "integer" }

def regAB : Registry := [("a.b", fiIntegerAB)]

/-- C10 counterexample: the claim promises a "not found in mapping" warning
for EVERY clause naming a strict dotted extension of a mapped path, including
`range` clauses — but `validateRangeQuery` has no existence warning at all.
For the registry mapping only `"a.b"` and the range query
`{"a.b.c": {"gte": 1}}`, the exact lookup misses, the ancestor fallback
(`getFieldType`) would succeed, and validation produces no Finding
whatsoever. -/
theorem validateRangeQuery_extension_no_warning_counterexample :
    mapGet regAB "a.b.c" = none ∧
    getFieldType regAB "a.b.c" = some fiIntegerAB ∧
    validateRangeQuery regAB
      (JVal.obj [("a.b.c", JVal.obj [("gte", JVal.num 1)])])
      [] [Seg.key "query", Seg.key "range"] = [] := by
  refine ⟨rfl, by decide, rfl⟩

/-- C10 amended: the field-existence checks test exact path equality and
never consult the ancestor-fallback lookup.  Whenever the exact lookup misses
— even if `getFieldType`'s fallback would resolve the name to a mapped
ancestor — `match`, `term` and `exists` clauses produce the "not found in
mapping" warning; a `range` clause instead produces no Finding at all (its
only use of the registry, the field-type advisory, is skipped). -/
theorem fieldChecks_exact_no_fallback (fields : Registry) (name : String)
    (v : FieldInfo) (hmiss : mapGet fields name = none)
    (hfb : getFieldType fields name = some v) (hne : name ≠ "") :
    (∀ (val : JVal) (errs : List Finding) (path : List Seg),
      mkF .warning ("Field \"" ++ name ++ "\" not found in mapping")
          (path ++ [Seg.key name]) ∈
        validateMatchQuery fields (JVal.obj [(name, val)]) errs path) ∧
    (∀ (val : JVal) (errs : List Finding) (path : List Seg),
      mkF .warning ("Field \"" ++ name ++ "\" not found in mapping")
          (path ++ [Seg.key name]) ∈
        validateTermQuery fields (JVal.obj [(name, val)]) errs path) ∧
    (∀ (errs : List Finding) (path : List Seg),
      validateExistsQuery fields (JVal.obj [("field", JVal.str name)]) errs path =
        errs ++ [mkF .warning ("Field \"" ++ name ++ "\" not found in mapping")
          (path ++ [Seg.key "field"])]) ∧
    (∀ (val : JVal) (errs : List Finding) (path : List Seg),
      validateRangeQuery fields (JVal.obj [(name, JVal.obj [("gte", val)])])
        errs path = errs) := by
  have hnone : (mapGet fields name).isNone = true := by rw [hmiss]; rfl
  refine ⟨?_, ?_, ?_, ?_⟩
  · intro val errs path
    have hobj : jsNotObject (JVal.obj [(name, val)]) = false := rfl
    have hkeys : ((JVal.obj [(name, val)]).keysOf.length == 0) = false := rfl
    simp only [validateMatchQuery, hobj, Bool.false_eq_true, if_false, hkeys,
      JVal.entriesOf, List.foldl_cons, List.foldl_nil, hnone, if_true]
    by_cases hval : jsNotObject val = true
    · simp only [hval, Bool.not_true, Bool.false_eq_true, if_false]
      simp
    · simp only [Bool.not_eq_true] at hval
      simp only [hval, Bool.not_false, if_true]
      obtain ⟨t, ht⟩ := validateMatchOptions_mono val
        (errs ++ [mkF .warning ("Field \"" ++ name ++ "\" not found in mapping")
          (path ++ [Seg.key name])]) (path ++ [Seg.key name])
      rw [ht]
      simp
  · intro val errs path
    have hobj : jsNotObject (JVal.obj [(name, val)]) = false := rfl
    simp only [validateTermQuery, hobj, Bool.false_eq_true, if_false,
      JVal.entriesOf, List.foldl_cons, List.foldl_nil, hnone, if_true]
    by_cases hval : (val.isObjectLike && !val.isArr) = true
    · simp only [hval, if_true]
      simp
    · simp only [hval, Bool.false_eq_true, if_false]
      simp
  · intro errs path
    have hobj : jsNotObject (JVal.obj [("field", JVal.str name)]) = false := rfl
    have hget : (JVal.obj [("field", JVal.str name)]).getProp "field" =
        some (JVal.str name) := rfl
    simp only [validateExistsQuery, hobj, Bool.false_eq_true, if_false, hget]
    have hne2 : (name == "") = false := by
      simpa using hne
    simp only [hne2, Bool.false_eq_true, if_false, hnone, if_true]
  · intro val errs path
    have hobj : jsNotObject (JVal.obj [(name, JVal.obj [("gte", val)])]) = false := rfl
    have hentries : (JVal.obj [(name, JVal.obj [("gte", val)])]).entriesOf =
        [(name, JVal.obj [("gte", val)])] := rfl
    simp only [validateRangeQuery, hobj, Bool.false_eq_true, if_false, hentries]
    have hrv : (jsNotObject (JVal.obj [("gte", val)]) ||
        (JVal.obj [("gte", val)]).isArr) = false := rfl
    simp only [hrv, Bool.false_eq_true, if_false]
    have hops : ((JVal.obj [("gte", val)]).keysOf.length == 0) = false := rfl
    simp only [hops, Bool.false_eq_true, if_false]
    have hop : (JVal.obj [("gte", val)]).keysOf = ["gte"] := rfl
    simp only [hop, List.foldl_cons, List.foldl_nil]
    have hvalid : validRangeOperators.contains "gte" = true := rfl
    simp only [hvalid, Bool.not_true, Bool.false_eq_true, if_false, hmiss]

/-- Witness for `fieldChecks_exact_no_fallback`: the range clause of the
theorem at the concrete registry `{"a.b": integer}` and field `"a.b.c"`. -/
theorem fieldChecks_exact_no_fallback_witness :
    validateRangeQuery regAB
      (JVal.obj [("a.b.c", JVal.obj [("gte", JVal.num 5)])])
      [] [Seg.key "query", Seg.key "range"] = [] :=
  (fieldChecks_exact_no_fallback regAB "a.b.c" fiIntegerAB rfl (by decide)
    (by decide)).2.2.2 (JVal.num 5) [] [Seg.key "query", Seg.key "range"]

/-! ## The partial-JSON context resolver (`esDSLParser`: `getDSLContext`,
`partialParse`, `findPathToOffset`, `processChar`, `analyzePath`)

Text is a `List Char`; the host `JSON.parse` is a parameter returning
`Except JSError JVal`.  A path entry is either a string (an object key, or
the array marker `'[]'` — the source conflates a literal `"[]"` key with the
marker, and so does the embedding) or a number (only ever inspected, never
pushed, by the source). -/

inductive PathItem where
  | str (s : String)
  | num (n : Int)
  deriving Repr, DecidableEq

/-- The mutable scan state of `findPathToOffset` (lines 1006–1013). -/
structure ScanState where
  path : List PathItem
  inString : Bool
  escapeNext : Bool
  currentKey : Option String
  expectingKey : Bool
  depth : Int
  deriving Repr, DecidableEq

def initScanState : ScanState :=
  { path := [], inString := false, escapeNext := false, currentKey := none,
    expectingKey := true, depth := 0 }

/-- JS `/\s/` on the characters that can appear in a JSON buffer. -/
def jsIsSpace (c : Char) : Bool :=
  c = ' ' || c = '\t' || c = '\n' || c = '\r' || c = '\x0b' || c = '\x0c'

/-- The lookahead `while (nextPos < code.length && /\s/.test(code[nextPos]))
nextPos++` followed by `code[nextPos] === ':'`, applied to the characters
from position `pos + 1` on. -/
def nextNonWsIsColon : List Char → Bool
  | [] => false
  | c :: rest => if jsIsSpace c then nextNonWsIsColon rest else c == ':'

/-- `path.pop()` guarded by `typeof path[path.length-1] === 'string'` (the
`}` branch of `processChar`). -/
def popIfStr (l : List PathItem) : List PathItem :=
  match l.getLast? with
  | some (.str _) => l.dropLast
  | _ => l

/-- The `]` branch of `processChar`: pop a trailing `'[]'` marker, then
increment a trailing numeric entry (dead in practice — numbers are never
pushed). -/
def popArrayMarker (l : List PathItem) : List PathItem :=
  match l.getLast? with
  | some (.str s) =>
    if s == "[]" then
      let l' := l.dropLast
      match l'.getLast? with
      | some (.num n) => l'.dropLast ++ [PathItem.num (n + 1)]
      | _ => l'
    else l
  | _ => l

/-- `processChar(char, state, pos, code)` (lines 1029–1109). -/
def processChar (code : List Char) (char : Char) (state : ScanState)
    (pos : Nat) : ScanState :=
  if state.escapeNext then { state with escapeNext := false }
  else if char = '\\' then { state with escapeNext := true }
  else if char = '"' then
    -- `state.inString = !state.inString` happens first
    let st := { state with inString := !state.inString }
    if !st.inString && st.currentKey.isSome then
      if st.expectingKey then
        if nextNonWsIsColon (code.drop (pos + 1)) then
          { st with path := st.path ++ [PathItem.str (st.currentKey.getD "")],
                    expectingKey := false, currentKey := none }
        else { st with currentKey := none }
      else st  -- a closing quote in value position leaves `currentKey` stale
    else st
  else if state.inString then
    { state with currentKey := some ((state.currentKey.getD "").push char) }
  else if char = '{' then
    { state with expectingKey := true, depth := state.depth + 1 }
  else if char = '}' then
    { state with expectingKey := true, path := popIfStr state.path,
                 depth := state.depth - 1 }
  else if char = '[' then
    { state with path := state.path ++ [PathItem.str "[]"], expectingKey := true }
  else if char = ']' then
    { state with path := popArrayMarker state.path, expectingKey := false }
  else if char = ',' then { state with expectingKey := true }
  else if char = ':' then { state with expectingKey := false }
  else state

/-- The loop `for (let i = 0; i < offset; i++) processChar(code[i], state, i,
code)`.  Iterations with `i ≥ code.length` see `undefined` and can only touch
the unused `currentKey` accumulator, so the scan stops at the end of the
text. -/
def runScan (code : List Char) : List Char → Nat → ScanState → ScanState
  | [], _, st => st
  | c :: rest, i, st => runScan code rest (i + 1) (processChar code c st i)

/-- `findPathToOffset(ast, code, offset)` (lines 995–1024); the parsed `ast`
argument is received but never consulted — the path comes entirely from the
character scan of the first `offset` characters. -/
def findPathToOffset (ast : JVal) (code : List Char) (offset : Nat) : List PathItem :=
  (runScan code (code.take offset) 0 initScanState).path

/-- `isValidQueryType` of the DSL parser (lines 1184–1196) — a shorter list
than the diagnostics provider's (no `span_*` types). -/
def validQueryTypesParser : List String :=
  ["match", "match_phrase", "match_phrase_prefix", "match_bool_prefix",
   "multi_match", "combined_fields", "bool", "boosting", "dis_max",
   "constant_score", "function_score", "script_score", "exists", "ids",
   "prefix", "range", "regexp", "wildcard", "fuzzy", "type", "terms",
   "terms_set", "term", "nested", "has_child", "has_parent", "parent_id",
   "geo_bounding_box", "geo_distance", "geo_polygon", "geo_shape",
   "more_like_this", "script", "simple_query_string", "query_string",
   "percolate", "rank_feature", "distance_feature", "interval"]

/-- The context record returned by `analyzePath`/`getDefaultContext`
(`boolClause` is the property added dynamically for bool sub-clauses). -/
structure DSLContext where
  path : List String
  location : String
  queryType : Option String
  inArray : Bool
  arrayIndex : Int
  expecting : String
  depth : Nat
  parentKey : Option String
  currentKey : Option String
  boolClause : Option String := none
  deriving Repr, DecidableEq

/-- `getDefaultContext()` (lines 1201–1213). -/
def getDefaultContext : DSLContext :=
  { path := [], location := "unknown", queryType := none, inArray := false,
    arrayIndex := -1, expecting := "key", depth := 0, parentKey := none,
    currentKey := none }

/-- JS `String.prototype.trim` on a character list. -/
def trimChars (l : List Char) : List Char :=
  ((l.dropWhile jsIsSpace).reverse.dropWhile jsIsSpace).reverse

/-- `s.lastIndexOf(c)` for a character known or not to occur. -/
def lastIndexOfChar (l : List Char) (c : Char) : Nat :=
  l.length - 1 - (l.reverse.findIdx (fun x => x == c))

/-- `analyzePath(path, code, offset)` (lines 1114–1179). -/
def analyzePath (path : List PathItem) (code : List Char) (offset : Nat) :
    DSLContext :=
  let ctx : DSLContext :=
    { path := [], location := "unknown", queryType := none, inArray := false,
      arrayIndex := -1, expecting := "key", depth := 0, parentKey := none,
      currentKey := none }
  let ctx :=
    path.foldl
      (fun c item =>
        match item with
        | .str s =>
          if s == "[]" then { c with inArray := true }
          else
            let c := { c with path := c.path ++ [s], parentKey := c.currentKey,
                              currentKey := some s }
            if s == "query" then { c with location := "query" }
            else if s == "aggs" || s == "aggregations" then { c with location := "aggs" }
            else if s == "bool" then { c with location := "bool" }
            else if ["must", "should", "filter", "must_not"].contains s then
              { c with location := "bool_clause", boolClause := some s }
            else if validQueryTypesParser.contains s then { c with queryType := some s }
            else c
        | .num n => { c with arrayIndex := n })
      ctx
  let ctx := { ctx with depth := path.length }
  -- key-vs-value expectation from the current line before the offset
  let textBefore := code.take offset
  let currentLine := (splitOnChar '\n' textBefore).getLastD []
  if currentLine.contains ':' then
    let colonPos := lastIndexOfChar currentLine ':'
    let afterColon := currentLine.drop (colonPos + 1)
    let quotes := afterColon.count '"'
    if quotes % 2 == 1 then { ctx with expecting := "value" }
    else if (trimChars afterColon).length == 0 || trimChars afterColon = ['{'] ||
        trimChars afterColon = ['['] then
      { ctx with expecting := "key" }
    else { ctx with expecting := "value" }
  else { ctx with expecting := "key" }

/-- `for (let j = i - 1; j >= 0 && code[j] === '\\'; j--) escapeCount++`. -/
def countBackslashesBefore (code : List Char) (i : Nat) : Nat :=
  ((code.take i).reverse.takeWhile (fun c => c == '\\')).length

/-- The forward brace/bracket counting state machine of `partialParse`
(lines 905–933). -/
def braceBalanceLoop : List Char → Bool → Bool → (Nat × Nat × Nat × Nat) →
    Nat × Nat × Nat × Nat
  | [], _, _, acc => acc
  | c :: rest, inString, escapeNext, acc =>
    if escapeNext then braceBalanceLoop rest inString false acc
    else if c = '\\' then braceBalanceLoop rest inString true acc
    else if c = '"' then braceBalanceLoop rest (!inString) false acc
    else if inString then braceBalanceLoop rest inString false acc
    else
      let acc :=
        if c = '{' then (acc.1 + 1, acc.2.1, acc.2.2.1, acc.2.2.2)
        else if c = '}' then (acc.1, acc.2.1 + 1, acc.2.2.1, acc.2.2.2)
        else if c = '[' then (acc.1, acc.2.1, acc.2.2.1 + 1, acc.2.2.2)
        else if c = ']' then (acc.1, acc.2.1, acc.2.2.1, acc.2.2.2 + 1)
        else acc
      braceBalanceLoop rest inString false acc

/-- The backward scan of `partialParse` (lines 938–965), iterating the index
from `code.length - 1` down to 0: depth counts closers/openers outside
strings (using the state before this character's own quote toggle), the
quote toggle ignores escaped quotes, and the loop breaks at the first
position with `depth === 0 && i < code.length - 1`, yielding `i + 1`.  If
the loop runs out, `lastCompletePos` keeps its initial value
`code.length`. -/
def backScanLoop (code : List Char) : List Nat → Bool → Int → Nat
  | [], _, _ => code.length
  | i :: rest, inString, depth =>
    let c := code.getD i ' '
    let depth' :=
      if !inString then
        if c = '}' || c = ']' then depth + 1
        else if c = '{' || c = '[' then depth - 1
        else depth
      else depth
    let inString' :=
      if c = '"' && (countBackslashesBefore code i) % 2 == 0 then !inString
      else inString
    if depth' == 0 && i < code.length - 1 then i + 1
    else backScanLoop code rest inString' depth'

def lastCompletePos (code : List Char) : Nat :=
  backScanLoop code (List.range code.length).reverse false 0

/-- `partialParse(code)` (lines 900–986): if braces/brackets are unbalanced,
truncate at the last complete position and append the missing closers (the
regex counts include characters inside strings, as in the source); then try
a strict parse of the result, degrading to `{}` on failure. -/
def recoverParse (jsonParse : List Char → Except JSError JVal)
    (code : List Char) : JVal :=
  let counts := braceBalanceLoop code false false (0, 0, 0, 0)
  let truncated :=
    if counts.1 > counts.2.1 || counts.2.2.1 > counts.2.2.2 then
      let t := code.take (lastCompletePos code)
      t ++ List.replicate (t.count '{' - t.count '}') '}' ++
        List.replicate (t.count '[' - t.count ']') ']'
    else code
  match jsonParse truncated with
  | .ok v => v
  | .error _ => JVal.obj []

/-- The body of `getDSLContext`'s try block (lines 875–889), with every
JS-exception source explicit: the inner strict parse falls back to
`partialParse`, whose own parse failure falls back to `{}`. -/
def getDSLContextBody (jsonParse : List Char → Except JSError JVal)
    (code : List Char) (offset : Nat) : Except String DSLContext :=
  let ast :=
    match jsonParse code with
    | .ok v => v
    | .error _ => recoverParse jsonParse code
  let path := findPathToOffset ast code offset
  .ok (analyzePath path code offset)

/-- `getDSLContext(code, offset)` (lines 874–894): the whole resolution is
wrapped in try/catch whose handler returns `getDefaultContext()`. -/
def getDSLContext (jsonParse : List Char → Except JSError JVal)
    (code : List Char) (offset : Nat) : DSLContext :=
  match getDSLContextBody jsonParse code offset with
  | .ok ctx => ctx
  | .error _ => getDefaultContext

/-- C9: for every behavior of the host JSON parser (including failure on
every input), every text and every offset, context resolution completes
without an exception escaping — the body always produces a context, and the
public `getDSLContext` returns it; the catch-handler's fallback is the
default record with location `unknown`, empty path and `expecting = key`. -/
theorem getDSLContext_never_raises
    (jsonParse : List Char → Except JSError JVal) (code : List Char)
    (offset : Nat) :
    (∃ ctx, getDSLContextBody jsonParse code offset = Except.ok ctx ∧
      getDSLContext jsonParse code offset = ctx) ∧
    getDefaultContext.location = "unknown" ∧
    getDefaultContext.path = [] ∧
    getDefaultContext.expecting = "key" := by
  refine ⟨⟨analyzePath (findPathToOffset
      (match jsonParse code with
       | .ok v => v
       | .error _ => recoverParse jsonParse code) code offset) code offset,
    ?_, ?_⟩, rfl, rfl, rfl⟩
  · rfl
  · rfl

/-! ## `ESCompletionProvider` (src/lib/esCompletionProvider.js lines 341–664)

Suggestions are modeled by their `label` and `detail`; the editor payload
(`kind`, `insertText`, `insertTextRules`, `documentation`, `sortText`) does
not influence filtering or deduplication and is not modeled.  The Monaco
model is a character list plus a 1-based (line, column) position. -/

structure CompletionItem where
  label : String
  detail : String := ""
  deriving Repr, DecidableEq

structure WordRange where
  startLineNumber : Nat
  startColumn : Nat
  endLineNumber : Nat
  endColumn : Nat
  deriving Repr, DecidableEq

structure CompletionResult where
  suggestions : List CompletionItem
  range : WordRange  -- attached to every returned suggestion
  deriving Repr, DecidableEq

/-- `model.getLineContent(lineNumber)`. -/
def lineContentAt (code : List Char) (line : Nat) : List Char :=
  (splitOnChar '\n' code).getD (line - 1) []

/-- `model.getOffsetAt(position)` for a 1-based (line, column). -/
def offsetAt (code : List Char) (line col : Nat) : Nat :=
  ((splitOnChar '\n' code).take (line - 1)).foldl (fun a l => a + l.length + 1) 0 +
    (col - 1)

/-- `/[\w_]/` — an ASCII word character. -/
def isWordCharJS (c : Char) : Bool :=
  c.isAlpha || c.isDigit || c = '_'

/-- `lineUntilPosition.match(/[\w_]+$/)` — the trailing word-character run. -/
def trailingWordRun (l : List Char) : List Char :=
  (l.reverse.takeWhile isWordCharJS).reverse

def lastIndexOfCharOpt (l : List Char) (c : Char) : Option Nat :=
  if l.contains c then some (lastIndexOfChar l c) else none

/-- `ESCompletionProvider.extractCurrentWord(lineUntilPosition)` (lines
432–453). -/
def extractCurrentWord (lineUntilPosition : List Char) : List Char :=
  match lastIndexOfCharOpt lineUntilPosition '"' with
  | none => trailingWordRun lineUntilPosition
  | some lastQuoteIndex =>
    let afterQuote := lineUntilPosition.drop (lastQuoteIndex + 1)
    if afterQuote.contains '"' then trailingWordRun afterQuote  -- unreachable
    else afterQuote

/-- The in-progress token of a completion call at (line, col). -/
def currentWordAt (code : List Char) (line col : Nat) : List Char :=
  extractCurrentWord ((lineContentAt code line).take (col - 1))

/-- `label.toLowerCase().startsWith(lowerWord)` (ASCII lowering). -/
def startsWithCI (label : List Char) (word : List Char) : Bool :=
  (label.map Char.toLower).take word.length == word.map Char.toLower

/-- `ESCompletionProvider.filterSuggestions(suggestions, currentWord)` (lines
475–483). -/
def filterSuggestions (suggestions : List CompletionItem)
    (currentWord : List Char) : List CompletionItem :=
  if currentWord.isEmpty then suggestions
  else suggestions.filter (fun s => startsWithCI s.label.data currentWord)

/-- `ESCompletionProvider.deduplicateSuggestions(suggestions)` (lines
654–663) — defined on the class but never invoked by
`provideCompletionItems`. -/
def deduplicateSuggestions (suggestions : List CompletionItem) :
    List CompletionItem :=
  go [] suggestions
where
  go (seen : List String) : List CompletionItem → List CompletionItem
    | [] => []
    | s :: rest =>
      if seen.contains s.label then go seen rest
      else s :: go (s.label :: seen) rest

/-- The six top-level key suggestions (lines 497–504). -/
def topLevelKeySuggestions : List CompletionItem :=
  [{ label := "query", detail := "Query clause" },
   { label := "aggs", detail := "Aggregations" },
   { label := "sort", detail := "Sort criteria" },
   { label := "size", detail := "Number of results" },
   { label := "from", detail := "Starting offset" },
   { label := "_source", detail := "Source filtering" }]

/-- The four bool-clause key suggestions (lines 510–515). -/
def boolClauseKeySuggestions : List CompletionItem :=
  [{ label := "must", detail := "Must match" },
   { label := "should", detail := "Should match" },
   { label := "filter", detail := "Filter" },
   { label := "must_not", detail := "Must not match" }]

/-- `getQueryTypeSuggestions()` (lines 562–587). -/
def getQueryTypeSuggestions : List CompletionItem :=
  [{ label := "match", detail := "Full-text search" },
   { label := "term", detail := "Exact value" },
   { label := "terms", detail := "Multiple values" },
   { label := "range", detail := "Range query" },
   { label := "bool", detail := "Boolean query" },
   { label := "exists", detail := "Field exists" },
   { label := "match_phrase", detail := "Phrase match" },
   { label := "prefix", detail := "Prefix match" },
   { label := "wildcard", detail := "Wildcard match" },
   { label := "multi_match", detail := "Multi-field search" },
   { label := "nested", detail := "Nested query" },
   { label := "function_score", detail := "Function score" },
   { label := "dis_max", detail := "Disjunction max" }]

/-- `getFieldNameSuggestions()` (lines 592–601): one suggestion per registry
entry, labeled by the field path with its type as detail. -/
def getFieldNameSuggestions (fields : Registry) : List CompletionItem :=
  fields.map (fun p => { label := p.1, detail := p.2.type })

/-- `getAggregationSuggestions()` (lines 606–635). -/
def getAggregationSuggestions : List CompletionItem :=
  [{ label := "terms", detail := "Bucket by unique terms" },
   { label := "avg", detail := "Average" },
   { label := "sum", detail := "Sum" },
   { label := "max", detail := "Maximum" },
   { label := "min", detail := "Minimum" },
   { label := "stats", detail := "Statistics" },
   { label := "extended_stats", detail := "Extended statistics" },
   { label := "cardinality", detail := "Unique count" },
   { label := "value_count", detail := "Count values" },
   { label := "filter", detail := "Filter aggregation" },
   { label := "filters", detail := "Multiple filters" },
   { label := "range", detail := "Range buckets" },
   { label := "date_range", detail := "Date range buckets" },
   { label := "date_histogram", detail := "Date histogram" },
   { label := "histogram", detail := "Numeric histogram" },
   { label := "nested", detail := "Nested aggregation" },
   { label := "reverse_nested", detail := "Reverse nested" },
   { label := "top_hits", detail := "Top documents" }]

/-- `getTemplateSuggestions()` (lines 640–649): one suggestion per entry of
`QUERY_TEMPLATES`, labeled by the template's `label` with its `description`
as detail. -/
def getTemplateSuggestions : List CompletionItem :=
  [{ label := "match_all", detail := "Match all documents" },
   { label := "match query", detail := "Full-text search" },
   { label := "term query", detail := "Exact value match" },
   { label := "range query", detail := "Range query" },
   { label := "bool query", detail := "Boolean combination" },
   { label := "multi_match query", detail := "Search multiple fields" },
   { label := "exists query", detail := "Field exists" },
   { label := "terms aggregation", detail := "Group by field values" },
   { label := "date_histogram", detail := "Time series aggregation" },
   { label := "filter aggregation", detail := "Filter and aggregate" },
   { label := "complex query", detail := "Complex query with aggregations" }]

/-- `getKeySuggestions(dslContext)` (lines 488–528). -/
def getKeySuggestions (fields : Registry) (ctx : DSLContext) :
    List CompletionItem :=
  if ctx.depth == 0 || ctx.path.length == 0 then topLevelKeySuggestions
  else if ctx.location == "query" && ctx.path.length == 1 then
    getQueryTypeSuggestions
  else if ctx.location == "bool" && ctx.path.length == 2 then
    boolClauseKeySuggestions
  else if ctx.location == "bool_clause" then getQueryTypeSuggestions
  else if ctx.queryType.isSome then getFieldNameSuggestions fields
  else if ctx.location == "aggs" then getAggregationSuggestions
  else []

/-- `getValueSuggestions(dslContext)` of the completion provider (lines
533–557).  When `currentKey` names a mapped field the source calls
`this.getFieldValueSuggestions(field)`, a method the class never defines, so
the call raises a `TypeError`. -/
def getValueSuggestionsProvider (fields : Registry) (ctx : DSLContext) :
    Except String (List CompletionItem) :=
  let suggestions : List CompletionItem :=
    if (match ctx.currentKey with | some k => k == "operator" | none => false) &&
        (match ctx.queryType with
         | some t => t == "match" || t == "match_phrase"
         | none => false) then
      [{ label := "or" }, { label := "and" }]
    else []  -- the `range` branch of the source has an empty body
  match ctx.currentKey with
  | some k =>
    if k != "" && (mapGet fields k).isSome then
      .error "TypeError: this.getFieldValueSuggestions is not a function"
    else .ok suggestions
  | none => .ok suggestions

/-- `ESCompletionProvider.provideCompletionItems(model, position, …)` (lines
366–427): extract the in-progress token, resolve the DSL context on the text
without it, branch on the expectation, add the whole-document templates when
fewer than 50 non-blank-trimmed characters precede the cursor, filter by the
token, and attach the replacement range. -/
def provideCompletionItems (fields : Registry)
    (jsonParse : List Char → Except JSError JVal) (code : List Char)
    (line col : Nat) : Except String CompletionResult :=
  let lineContent := lineContentAt code line
  let lineUntilPosition := lineContent.take (col - 1)
  let currentWord := extractCurrentWord lineUntilPosition
  let wordRange : WordRange :=
    { startLineNumber := line, startColumn := col - currentWord.length,
      endLineNumber := line, endColumn := col }
  let offset := offsetAt code line col
  let codeBeforeWord := code.take (offset - currentWord.length)
  let dslContext := getDSLContext jsonParse codeBeforeWord (offset - currentWord.length)
  let sugg1 : Except String (List CompletionItem) :=
    if dslContext.expecting == "key" then .ok (getKeySuggestions fields dslContext)
    else if dslContext.expecting == "value" then
      getValueSuggestionsProvider fields dslContext
    else .ok []
  match sugg1 with
  | .error e => .error e
  | .ok suggestions =>
    let textBefore := code.take offset
    let suggestions :=
      if (trimChars textBefore).length < 50 then
        suggestions ++ getTemplateSuggestions
      else suggestions
    .ok { suggestions := filterSuggestions suggestions currentWord,
          range := wordRange }

theorem mem_filterSuggestions {S : List CompletionItem} {w : List Char}
    {s : CompletionItem} (h : s ∈ filterSuggestions S w) (hw : w ≠ []) :
    startsWithCI s.label.data w = true := by
  unfold filterSuggestions at h
  rw [if_neg (by simpa using hw)] at h
  exact (List.mem_filter.mp h).2

/-- C8 amended: whenever a completion call returns normally and the
in-progress token is non-empty, every returned suggestion's label
case-insensitively starts with that token (they all passed
`filterSuggestions`). -/
theorem provideCompletionItems_filtered_by_token (fields : Registry)
    (jsonParse : List Char → Except JSError JVal) (code : List Char)
    (line col : Nat) (r : CompletionResult)
    (hok : provideCompletionItems fields jsonParse code line col = Except.ok r)
    (hword : currentWordAt code line col ≠ []) :
    ∀ s ∈ r.suggestions,
      startsWithCI s.label.data (currentWordAt code line col) = true := by
  intro s hs
  simp only [provideCompletionItems] at hok
  split at hok
  · cases hok
  · rw [Except.ok.injEq] at hok
    subst hok
    exact mem_filterSuggestions hs (by simpa [currentWordAt] using hword)

/-- The buffer `{"aggs":{"a":{\n"date` with the cursor at the end of line 2
(line 2, column 6): the user is typing the token `date` in key position
inside `aggs`, and fewer than 50 characters precede the cursor. -/
def c8Code : List Char := "\x7b\"aggs\":\x7b\"a\":\x7b\n\"date".data

/-- A host parser that fails on the (invalid) buffers of the C8 scenario. -/
def c8Parse : List Char → Except JSError JVal :=
  fun _ => .error { message := "Unexpected end of JSON input", reportedPos := none }

def c8Expected : CompletionResult :=
  { suggestions :=
      [{ label := "date_range", detail := "Date range buckets" },
       { label := "date_histogram", detail := "Date histogram" },
       { label := "date_histogram", detail := "Time series aggregation" }],
    range := { startLineNumber := 2, startColumn := 2,
               endLineNumber := 2, endColumn := 6 } }

/-- C8 counterexample: with the token `date` inside an `aggs` block, the
aggregation-type suggestion `date_histogram` and the query template labeled
`date_histogram` are both returned — `deduplicateSuggestions` is never
invoked, so two suggestions share one label. -/
theorem provideCompletionItems_duplicate_labels_counterexample :
    provideCompletionItems [] c8Parse c8Code 2 6 = Except.ok c8Expected ∧
    currentWordAt c8Code 2 6 = "date".data ∧
    c8Expected.suggestions.map (fun s => s.label) =
      ["date_range", "date_histogram", "date_histogram"] ∧
    (c8Expected.suggestions.map (fun s => s.label)).count "date_histogram" = 2 :=
  ⟨rfl, rfl, rfl, rfl⟩

/-- Witness for `provideCompletionItems_filtered_by_token`: the filter
property applied to the first suggestion of the concrete C8 call. -/
theorem provideCompletionItems_filtered_by_token_witness :
    startsWithCI "date_range".data (currentWordAt c8Code 2 6) = true :=
  provideCompletionItems_filtered_by_token [] c8Parse c8Code 2 6 c8Expected
    rfl (by decide)
    { label := "date_range", detail := "Date range buckets" } (by decide)

end ElasticQ
